import Mathlib

/-!
Verification of the weather-images service against its specification.

Shallow embedding of the core of the repository:
  - the two-tier image cache of src/services/cache.js (in-process Map tier plus a
    filesystem or Azure-blob durable backend, and the lazily initialized manager),
  - the hourly-to-daily aggregator and the two SVG renderers of src/services/chart.js,
  - the cache-key fingerprint generator and its call sites in src/index.js.

Node Buffers are byte lists (bit-for-bit equality is list equality); a JS Map is an
insertion-ordered association list with unique keys; asynchronous backend effects
(file reads and writes, blob reads and uploads) are oracles or success flags passed
explicitly; JS numbers carrying data are rationals, with null/undefined/NaN data
modelled as `Option.none`.
-/

/-- A kernel-computable decidability instance for the lexicographic string order
(propositionally equal to the default one, which is iterator-based and does not
reduce): needed so that concrete runs of the model evaluate. -/
instance (priority := 2000) decStringLe : DecidableRel (fun a b : String => a ≤ b) :=
  fun a b => decidable_of_iff (a.toList ≤ b.toList) String.le_iff_toList_le.symm

/-- Raw encoded image bytes (a Node Buffer). `Buffer.from` copies preserve contents,
so a copy is the same list. -/
abbrev Bytes := List Nat

/-- The process-wide memory tier `MEMORY_CACHE`: a JS Map, i.e. an association list
in insertion order. -/
abbrev MemCache := List (String × Bytes)

/-- `MAX_MEMORY_CACHE_SIZE` from cache.js. -/
def MAX_MEMORY_CACHE_SIZE : Nat := 100

/-- `Map.get` / `Map.has`: the entry with the given key (first match). -/
def memLookup : MemCache → String → Option Bytes
  | [], _ => none
  | e :: rest, k => if e.1 = k then some e.2 else memLookup rest k

/-- `Map.set`: update an existing key in place (keeping its insertion position),
otherwise append the new entry at the end. -/
def mapSet : MemCache → String → Bytes → MemCache
  | [], k, v => [(k, v)]
  | e :: rest, k, v => if e.1 = k then (k, v) :: rest else e :: mapSet rest k v

/-- `Map.delete k`: remove the entry with the given key, if present. -/
def deleteKey : MemCache → String → MemCache
  | [], _ => []
  | e :: rest, k => if e.1 = k then rest else e :: deleteKey rest k

/-- The eviction step shared by every memory-tier insertion in cache.js:
`if (MEMORY_CACHE.size >= MAX_MEMORY_CACHE_SIZE) MEMORY_CACHE.delete(MEMORY_CACHE.keys().next().value)`,
i.e. when at capacity delete the entry of the first (oldest-inserted) key. -/
def evictIfFull (m : MemCache) : MemCache :=
  if MAX_MEMORY_CACHE_SIZE ≤ m.length then
    match m with
    | [] => []
    | e :: _ => deleteKey m e.1
  else m

/-- The memory-tier key `${key}:${format}`. -/
def memoryKey (key fmt : String) : String := key ++ ":" ++ fmt

/-- The resolved cache directory `CACHE_DIR` (environment-dependent in the source; a
fixed stand-in here, since every operation addresses it only through `getCachePath`). -/
def CACHE_DIR : String := "cache"

/-- `getCachePath`: `path.join(CACHE_DIR, key + "." + (format === "svg" ? "svg" : "png"))`. -/
def getCachePath (key fmt : String) : String :=
  CACHE_DIR ++ "/" ++ key ++ "." ++ (if fmt = "svg" then "svg" else "png")

/-- The Azure blob name `${key}.${format === "svg" ? "svg" : "png"}`. -/
def blobName (key fmt : String) : String :=
  key ++ "." ++ (if fmt = "svg" then "svg" else "png")

/-- Outcome of `fs.readFile`: data, or an error carrying its `code`
(for example "ENOENT" or "EACCES"). -/
inductive FsResult where
  | ok (data : Bytes)
  | error (code : String)
deriving DecidableEq

/-- State touched by the filesystem backend: the shared memory tier plus the cache
directory contents (file path to bytes). -/
structure FsState where
  mem : MemCache
  store : List (String × Bytes)
deriving DecidableEq

/-- `FileSystemCache.get`: check the memory tier first and return the hit unchanged;
on a memory miss read the cache file, where an ENOENT error is a cache miss (null),
any other read error is rethrown to the caller (`throw err`), and a successful read
stores a copy into the memory tier (evicting the oldest entry when at capacity)
before returning the bytes. -/
def FileSystemCache.get (mem : MemCache) (readFile : String → FsResult) (key fmt : String) :
    Except String (Option Bytes × MemCache) :=
  let mk := memoryKey key fmt
  match memLookup mem mk with
  | some v => .ok (some v, mem)
  | none =>
    match readFile (getCachePath key fmt) with
    | .ok data => .ok (some data, mapSet (evictIfFull mem) mk data)
    | .error code => if code = "ENOENT" then .ok (none, mem) else .error code

/-- `FileSystemCache.set`: store into the memory tier first (evict-then-set), then
attempt the file write; a failed write (`writeOk = false`) is logged and swallowed and
does not undo the memory write. -/
def FileSystemCache.set (st : FsState) (key fmt : String) (data : Bytes) (writeOk : Bool) :
    FsState :=
  let mk := memoryKey key fmt
  ⟨mapSet (evictIfFull st.mem) mk data,
   if writeOk then mapSet st.store (getCachePath key fmt) data else st.store⟩

/-- `AzureBlobCache.get`: check the memory tier first and return the hit unchanged;
on a memory miss consult the blob store, whose whole interaction (exists check plus
download) yields no blob, a blob, or throws; every thrown error is caught and
returned as a cache miss (null). A downloaded blob is copied into the memory tier
(evicting the oldest entry when at capacity) before being returned. -/
def AzureBlobCache.get (mem : MemCache) (readBlob : String → Except String (Option Bytes))
    (key fmt : String) : Except String (Option Bytes × MemCache) :=
  let mk := memoryKey key fmt
  match memLookup mem mk with
  | some v => .ok (some v, mem)
  | none =>
    match readBlob (blobName key fmt) with
    | .ok none => .ok (none, mem)
    | .ok (some buf) => .ok (some buf, mapSet (evictIfFull mem) mk buf)
    | .error _ => .ok (none, mem)

/-- `AzureBlobCache.set`: store into the memory tier first (evict-then-set), then
attempt the blob upload; a failed upload (`uploadOk = false`) is logged and swallowed
and does not undo the memory write. -/
def AzureBlobCache.set (mem : MemCache) (blobs : List (String × Bytes)) (key fmt : String)
    (data : Bytes) (uploadOk : Bool) : MemCache × List (String × Bytes) :=
  let mk := memoryKey key fmt
  (mapSet (evictIfFull mem) mk data,
   if uploadOk then mapSet blobs (blobName key fmt) data else blobs)

/-- `fs.readFile` against a modelled cache directory: ENOENT when the file is absent. -/
def storeRead (store : List (String × Bytes)) : String → FsResult :=
  fun p =>
    match memLookup store p with
    | some b => .ok b
    | none => .error "ENOENT"

/-! Basic lemmas about the Map model. -/

theorem memLookup_mapSet_self (m : MemCache) (k : String) (v : Bytes) :
    memLookup (mapSet m k v) k = some v := by
  induction m with
  | nil => simp [mapSet, memLookup]
  | cons e rest ih =>
    by_cases h : e.1 = k
    · simp [mapSet, memLookup, h]
    · simp [mapSet, memLookup, h, ih]

theorem memLookup_mapSet_ne (m : MemCache) (k k' : String) (v : Bytes) (h : k' ≠ k) :
    memLookup (mapSet m k v) k' = memLookup m k' := by
  induction m with
  | nil => simp [mapSet, memLookup, Ne.symm h]
  | cons e rest ih =>
    by_cases he : e.1 = k
    · simp [mapSet, memLookup, he, Ne.symm h]
    · simp only [mapSet, if_neg he, memLookup]
      by_cases he' : e.1 = k'
      · simp [he']
      · simp [he', ih]

theorem memLookup_eq_none_iff (m : MemCache) (k : String) :
    memLookup m k = none ↔ k ∉ m.map Prod.fst := by
  induction m with
  | nil => simp [memLookup]
  | cons e rest ih =>
    simp only [memLookup, List.map_cons, List.mem_cons]
    by_cases h : e.1 = k
    · simp [h]
    · simp [h, ih, Ne.symm h]

theorem mapSet_length (m : MemCache) (k : String) (v : Bytes) :
    (mapSet m k v).length = m.length ∨ (mapSet m k v).length = m.length + 1 := by
  induction m with
  | nil => right; simp [mapSet]
  | cons e rest ih =>
    by_cases h : e.1 = k
    · left; simp [mapSet, h]
    · rcases ih with ih | ih
      · left; simp [mapSet, h, ih]
      · right; simp [mapSet, h, ih]

theorem mapSet_keys_of_mem (m : MemCache) (k : String) (v : Bytes)
    (h : memLookup m k ≠ none) :
    (mapSet m k v).map Prod.fst = m.map Prod.fst := by
  induction m with
  | nil => simp [memLookup] at h
  | cons e rest ih =>
    by_cases he : e.1 = k
    · simp [mapSet, he]
    · simp only [memLookup, if_neg he] at h
      simp [mapSet, he, ih h]

theorem evictIfFull_length_of_full (m : MemCache) (h : MAX_MEMORY_CACHE_SIZE ≤ m.length) :
    (evictIfFull m).length + 1 = m.length := by
  match m with
  | [] => simp [MAX_MEMORY_CACHE_SIZE] at h
  | e :: rest =>
    simp only [List.length_cons] at h
    simp [evictIfFull, h, deleteKey]

theorem evictIfFull_of_not_full (m : MemCache) (h : ¬ MAX_MEMORY_CACHE_SIZE ≤ m.length) :
    evictIfFull m = m := by
  simp [evictIfFull, h]

theorem evictIfFull_length_le (m : MemCache) : (evictIfFull m).length ≤ m.length := by
  by_cases h : MAX_MEMORY_CACHE_SIZE ≤ m.length
  · have := evictIfFull_length_of_full m h
    omega
  · rw [evictIfFull_of_not_full m h]

/-- The memory length after any evict-then-set insertion stays within capacity. -/
theorem insert_length_le (m : MemCache) (k : String) (v : Bytes)
    (h : m.length ≤ MAX_MEMORY_CACHE_SIZE) :
    (mapSet (evictIfFull m) k v).length ≤ MAX_MEMORY_CACHE_SIZE := by
  rcases mapSet_length (evictIfFull m) k v with hl | hl <;> rw [hl]
  · exact le_trans (evictIfFull_length_le m) h
  · by_cases hf : MAX_MEMORY_CACHE_SIZE ≤ m.length
    · have := evictIfFull_length_of_full m hf
      omega
    · rw [evictIfFull_of_not_full m hf]
      omega

/-! Claim C9: set-then-get round trip. -/

/-- C9: for every fingerprint, format and byte sequence, `set(f, fmt, bytes)` followed
immediately by `get(f, fmt)` returns bytes bit-for-bit equal to the input, for both the
filesystem backend and the object-store backend, whatever the outcome of the durable
write (the freshly set memory-tier entry is hit first, and it holds the stored bytes). -/
theorem cache_set_then_get_roundtrip (mem : MemCache) (store blobs : List (String × Bytes))
    (readFile : String → FsResult) (readBlob : String → Except String (Option Bytes))
    (key fmt : String) (data : Bytes) (writeOk uploadOk : Bool) :
    FileSystemCache.get (FileSystemCache.set ⟨mem, store⟩ key fmt data writeOk).mem
        readFile key fmt =
      Except.ok (some data, (FileSystemCache.set ⟨mem, store⟩ key fmt data writeOk).mem) ∧
    AzureBlobCache.get (AzureBlobCache.set mem blobs key fmt data uploadOk).1
        readBlob key fmt =
      Except.ok (some data, (AzureBlobCache.set mem blobs key fmt data uploadOk).1) := by
  constructor
  · simp [FileSystemCache.get, FileSystemCache.set, memLookup_mapSet_self]
  · simp [AzureBlobCache.get, AzureBlobCache.set, memLookup_mapSet_self]

/-! Claim C1: backend read errors and cache get. -/

/-- C1 counterexample: a filesystem cache get whose backend read fails with an error
other than ENOENT (here EACCES) propagates the error to the caller instead of
returning a miss, refuting the claim that both backends swallow every read error. -/
theorem fs_get_propagates_non_enoent_error :
    FileSystemCache.get [] (fun _ => FsResult.error "EACCES") "k" "svg" =
      Except.error "EACCES" := by
  rfl

/-- C1 (amended): the object-store backend get never propagates any backend error
(every outcome is returned as `Except.ok`); the filesystem backend get swallows
exactly the ENOENT read error as a miss and propagates every other read error to
the caller. -/
theorem cache_get_error_handling :
    (∀ (mem : MemCache) (readBlob : String → Except String (Option Bytes)) (key fmt : String),
      ∃ r, AzureBlobCache.get mem readBlob key fmt = Except.ok r) ∧
    (∀ (mem : MemCache) (readFile : String → FsResult) (key fmt : String),
      memLookup mem (memoryKey key fmt) = none →
      readFile (getCachePath key fmt) = FsResult.error "ENOENT" →
      FileSystemCache.get mem readFile key fmt = Except.ok (none, mem)) ∧
    (∀ (mem : MemCache) (readFile : String → FsResult) (key fmt : String) (code : String),
      memLookup mem (memoryKey key fmt) = none →
      readFile (getCachePath key fmt) = FsResult.error code →
      code ≠ "ENOENT" →
      FileSystemCache.get mem readFile key fmt = Except.error code) := by
  refine ⟨fun mem readBlob key fmt => ?_,
          fun mem readFile key fmt hmem hread => ?_,
          fun mem readFile key fmt code hmem hread hcode => ?_⟩
  · cases hm : memLookup mem (memoryKey key fmt) with
    | some v => exact ⟨(some v, mem), by simp [AzureBlobCache.get, hm]⟩
    | none =>
      cases hb : readBlob (blobName key fmt) with
      | ok ob =>
        cases ob with
        | none => exact ⟨(none, mem), by simp [AzureBlobCache.get, hm, hb]⟩
        | some buf =>
          exact ⟨(some buf, mapSet (evictIfFull mem) (memoryKey key fmt) buf),
            by simp [AzureBlobCache.get, hm, hb]⟩
      | error e => exact ⟨(none, mem), by simp [AzureBlobCache.get, hm, hb]⟩
  · simp [FileSystemCache.get, hmem, hread]
  · simp [FileSystemCache.get, hmem, hread, hcode]

/-- C1 witness: the amended theorem applied at a concrete miss state. -/
theorem cache_get_error_handling_witness :
    FileSystemCache.get [] (fun _ => FsResult.error "ENOENT") "k" "svg" =
      Except.ok (none, ([] : MemCache)) :=
  cache_get_error_handling.2.1 [] (fun _ => FsResult.error "ENOENT") "k" "svg" rfl rfl

/-! Claim C10: memory-tier capacity invariant and evict-before-presence-check. -/

/-- C10: the memory tier holds at most `MAX_MEMORY_CACHE_SIZE = 100` entries after
every cache get or set of either backend (given it did before), and because the
eviction check runs before the key-presence check, a set of an already-present key
while the tier is at capacity still evicts the oldest entry, so overwriting an
existing key removes an unrelated oldest entry from memory. -/
theorem memory_tier_capacity_invariant :
    MAX_MEMORY_CACHE_SIZE = 100 ∧
    (∀ (mem : MemCache) (store : List (String × Bytes)) (key fmt : String)
        (data : Bytes) (writeOk : Bool),
      mem.length ≤ MAX_MEMORY_CACHE_SIZE →
      (FileSystemCache.set ⟨mem, store⟩ key fmt data writeOk).mem.length ≤
        MAX_MEMORY_CACHE_SIZE) ∧
    (∀ (mem : MemCache) (blobs : List (String × Bytes)) (key fmt : String)
        (data : Bytes) (uploadOk : Bool),
      mem.length ≤ MAX_MEMORY_CACHE_SIZE →
      (AzureBlobCache.set mem blobs key fmt data uploadOk).1.length ≤
        MAX_MEMORY_CACHE_SIZE) ∧
    (∀ (mem : MemCache) (readFile : String → FsResult) (key fmt : String)
        (b : Option Bytes) (mem' : MemCache),
      mem.length ≤ MAX_MEMORY_CACHE_SIZE →
      FileSystemCache.get mem readFile key fmt = Except.ok (b, mem') →
      mem'.length ≤ MAX_MEMORY_CACHE_SIZE) ∧
    (∀ (mem : MemCache) (readBlob : String → Except String (Option Bytes))
        (key fmt : String) (b : Option Bytes) (mem' : MemCache),
      mem.length ≤ MAX_MEMORY_CACHE_SIZE →
      AzureBlobCache.get mem readBlob key fmt = Except.ok (b, mem') →
      mem'.length ≤ MAX_MEMORY_CACHE_SIZE) ∧
    (∀ (mem : MemCache) (store : List (String × Bytes)) (key fmt : String)
        (data : Bytes) (writeOk : Bool) (k₀ : String) (v₀ : Bytes) (rest : MemCache),
      mem = (k₀, v₀) :: rest →
      mem.length = MAX_MEMORY_CACHE_SIZE →
      (mem.map Prod.fst).Nodup →
      memLookup mem (memoryKey key fmt) ≠ none →
      k₀ ≠ memoryKey key fmt →
      memLookup (FileSystemCache.set ⟨mem, store⟩ key fmt data writeOk).mem k₀ = none) := by
  refine ⟨rfl, fun mem store key fmt data writeOk h => ?_,
          fun mem blobs key fmt data uploadOk h => ?_,
          fun mem readFile key fmt b mem' h hget => ?_,
          fun mem readBlob key fmt b mem' h hget => ?_,
          fun mem store key fmt data writeOk k₀ v₀ rest hmem hlen hnodup hpresent hne => ?_⟩
  · exact insert_length_le mem (memoryKey key fmt) data h
  · exact insert_length_le mem (memoryKey key fmt) data h
  · cases hm : memLookup mem (memoryKey key fmt) with
    | some v =>
      simp [FileSystemCache.get, hm] at hget
      rw [← hget.2]
      exact h
    | none =>
      cases hr : readFile (getCachePath key fmt) with
      | ok data =>
        simp [FileSystemCache.get, hm, hr] at hget
        rw [← hget.2]
        exact insert_length_le mem (memoryKey key fmt) data h
      | error code =>
        by_cases hc : code = "ENOENT"
        · simp [FileSystemCache.get, hm, hr, hc] at hget
          rw [← hget.2]
          exact h
        · simp [FileSystemCache.get, hm, hr, hc] at hget
  · cases hm : memLookup mem (memoryKey key fmt) with
    | some v =>
      simp [AzureBlobCache.get, hm] at hget
      rw [← hget.2]
      exact h
    | none =>
      cases hb : readBlob (blobName key fmt) with
      | ok ob =>
        cases ob with
        | none =>
          simp [AzureBlobCache.get, hm, hb] at hget
          rw [← hget.2]
          exact h
        | some buf =>
          simp [AzureBlobCache.get, hm, hb] at hget
          rw [← hget.2]
          exact insert_length_le mem (memoryKey key fmt) buf h
      | error e =>
        simp [AzureBlobCache.get, hm, hb] at hget
        rw [← hget.2]
        exact h
  · subst hmem
    show memLookup (mapSet (evictIfFull ((k₀, v₀) :: rest)) (memoryKey key fmt) data) k₀ = none
    have hfull : MAX_MEMORY_CACHE_SIZE ≤ ((k₀, v₀) :: rest).length := le_of_eq hlen.symm
    have he : evictIfFull ((k₀, v₀) :: rest) = rest := by
      have hfull2 : MAX_MEMORY_CACHE_SIZE ≤ rest.length + 1 := by simpa using hfull
      simp [evictIfFull, hfull2, deleteKey]
    rw [he]
    have hp : memLookup rest (memoryKey key fmt) ≠ none := by
      simpa [memLookup, hne] using hpresent
    rw [memLookup_eq_none_iff, mapSet_keys_of_mem rest (memoryKey key fmt) data hp]
    simp only [List.map_cons, List.nodup_cons] at hnodup
    exact hnodup.1

/-! Claim C5: FIFO eviction at capacity + 1, durable retrievability, no read-hit promotion. -/

/-- The 101 distinct (fingerprint, format) entries inserted in claim C5, oldest
first: fingerprints k0..k100, all in svg format, bytes [i]. -/
def c5Entries : List (String × Bytes) :=
  (List.range 101).map (fun i => ("k" ++ toString i, [i]))

/-- The state after inserting the 101 entries through FileSystemCache.set (every
durable write succeeding), starting from an empty memory tier and an empty cache
directory. -/
def c5State : FsState :=
  c5Entries.foldl (fun st kv => FileSystemCache.set st kv.1 "svg" kv.2 true) ⟨[], []⟩

/-- Bytes returned by a cache get outcome (none on error or miss). -/
def returnedBytes : Except String (Option Bytes × MemCache) → Option Bytes
  | Except.ok (b, _) => b
  | Except.error _ => none

set_option maxRecDepth 4000 in
/-- Memory tier contents after the 101 inserts: exactly the last 100 entries, in
insertion order. -/
theorem c5State_mem_eq :
    c5State.mem = (List.range 100).map (fun j => ("k" ++ toString (j + 1) ++ ":svg", [j + 1])) := by
  decide

set_option maxRecDepth 4000 in
/-- C5: starting from an empty memory tier, inserting capacity + 1 = 101 distinct
(fingerprint, format) keys via set leaves exactly one prior key — the oldest-inserted
k0 — unretrievable from memory while every other key stays retrievable, k0 remains
retrievable through the durable backend, and a memory read hit returns the memory
tier unchanged (pure insertion-order FIFO: a hit never promotes the entry). -/
theorem fifo_eviction_capacity_plus_one :
    memLookup c5State.mem (memoryKey "k0" "svg") = none ∧
    (∀ i : Nat, i < 101 → 1 ≤ i →
      memLookup c5State.mem (memoryKey ("k" ++ toString i) "svg") = some [i]) ∧
    returnedBytes (FileSystemCache.get c5State.mem (storeRead c5State.store) "k0" "svg") =
      some [0] ∧
    (∀ (mem : MemCache) (readFile : String → FsResult) (key fmt : String) (v : Bytes),
      memLookup mem (memoryKey key fmt) = some v →
      FileSystemCache.get mem readFile key fmt = Except.ok (some v, mem)) := by
  refine ⟨?_, ?_, ?_, fun mem readFile key fmt v hv => by simp [FileSystemCache.get, hv]⟩
  · rw [c5State_mem_eq]
    decide
  · rw [c5State_mem_eq]
    decide
  · decide

/-- C5 witness: the eviction theorem applied at concrete inputs — the retrievable-key
part at i = 1 and the no-promotion part at a one-entry memory tier. -/
theorem fifo_eviction_capacity_plus_one_witness :
    memLookup c5State.mem (memoryKey ("k" ++ toString 1) "svg") = some [1] ∧
    FileSystemCache.get [("a:svg", [7])] (storeRead []) "a" "svg" =
      Except.ok (some [7], [("a:svg", [7])]) :=
  ⟨fifo_eviction_capacity_plus_one.2.1 1 (by decide) (by decide),
   fifo_eviction_capacity_plus_one.2.2.2 [("a:svg", [7])] (storeRead []) "a" "svg" [7] rfl⟩

/-! Claim C6: the getCache lifecycle. -/

/-- Cache-manager lifecycle state from cache.js: `cacheInstance` (null until
assigned; backend instances abstracted to an identifier), whether a
`cacheInitPromise` is pending, and whether the assigned backend instance has
completed its `init()`. -/
structure CacheManagerState where
  inst : Option Nat
  initPromisePending : Bool
  initDone : Bool
deriving DecidableEq

/-- What a single getCache call observes: the memoized instance returned
immediately by the first check (together with whether its init has completed by
that moment), or a wait on the in-flight initialization promise. -/
inductive GetCacheOutcome where
  | immediate (inst : Nat) (initDone : Bool)
  | awaitInit
deriving DecidableEq

/-- The synchronous segment of a getCache call: return `cacheInstance` at once if it
is non-null; otherwise return the pending `cacheInitPromise` if one exists; otherwise
start initialization — the async IIFE runs synchronously up to `await init()`, so it
assigns `cacheInstance` (and the pending promise) before the init has completed. -/
def getCacheStep (s : CacheManagerState) : CacheManagerState × GetCacheOutcome :=
  match s.inst with
  | some i => (s, GetCacheOutcome.immediate i s.initDone)
  | none =>
    if s.initPromisePending then (s, GetCacheOutcome.awaitInit)
    else (⟨some 0, true, false⟩, GetCacheOutcome.awaitInit)

/-- Resolution of the in-flight initialization: `init()` completes, the IIFE clears
`cacheInitPromise` and resolves with the instance. -/
def initResolveStep (s : CacheManagerState) : CacheManagerState :=
  ⟨s.inst, false, true⟩

/-- C6: evaluating the getCache model at the failing interleaving — from the fresh
process state, caller A starts initialization (and suspends awaiting init); caller B
then calls getCache before the initialization resolves and receives the backend
instance immediately with `initDone = false`, i.e. a caller obtains a backend whose
init has not completed instead of awaiting the in-flight initialization. -/
theorem getCache_second_caller_gets_uninitialized_instance :
    (getCacheStep (getCacheStep ⟨none, false, false⟩).1).2 =
      GetCacheOutcome.immediate 0 false := rfl

/-! The hourly-to-daily aggregator: aggregateHourlyToDaily in chart.js. -/

/-- One hourly sample: the ISO timestamp string "YYYY-MM-DDTHH:MM" together with the
same-index entries of the temperature_2m, relative_humidity_2m, apparent_temperature
and precipitation arrays; a null / undefined / NaN entry is `none`, and the JS date
key `time[i].slice(0, 10)` is `time.take 10`. -/
structure HourlySample where
  time : String
  temp : Option ℚ
  humidity : Option ℚ
  apparent : Option ℚ
  precip : Option ℚ
deriving DecidableEq

/-- A row of the byDay map. The -Infinity / Infinity sentinels of maxTemp / minTemp
are modelled as `none`, exploiting Math.max(-Infinity, t) = t and
Math.min(Infinity, t) = t; the final projection then maps the sentinel to null,
which is the identity here. -/
structure DayAcc where
  date : String
  maxTemp : Option ℚ
  minTemp : Option ℚ
  sumHumidity : ℚ
  sumApparent : ℚ
  count : Nat
  sumPrecip : ℚ
deriving DecidableEq

/-- The sentinel row inserted when a date is first seen. -/
def freshAcc (d : String) : DayAcc := ⟨d, none, none, 0, 0, 0, 0⟩

/-- `Math.max(row.maxTemp, t)` with the -Infinity sentinel modelled as `none`. -/
def maxStep (o : Option ℚ) (t : ℚ) : ℚ :=
  match o with
  | none => t
  | some m => max m t

/-- `Math.min(row.minTemp, t)` with the Infinity sentinel modelled as `none`. -/
def minStep (o : Option ℚ) (t : ℚ) : ℚ :=
  match o with
  | none => t
  | some m => min m t

/-- The loop body of aggregateHourlyToDaily for one sample, given its day row:
each field is folded in only when its own value is present (non-null, non-NaN). -/
def updateAcc (row : DayAcc) (s : HourlySample) : DayAcc :=
  let row1 :=
    match s.temp with
    | some t =>
      { row with
        maxTemp := some (maxStep row.maxTemp t),
        minTemp := some (minStep row.minTemp t) }
    | none => row
  let row2 :=
    match s.humidity with
    | some h => { row1 with sumHumidity := row1.sumHumidity + h, count := row1.count + 1 }
    | none => row1
  let row3 :=
    match s.apparent with
    | some a => { row2 with sumApparent := row2.sumApparent + a }
    | none => row2
  match s.precip with
  | some p => { row3 with sumPrecip := row3.sumPrecip + p }
  | none => row3

/-- Process one sample against the insertion-ordered byDay map: update the existing
row of its date in place, or append a fresh row (immediately updated) at the end. -/
def insertSample : List DayAcc → HourlySample → List DayAcc
  | [], s => [updateAcc (freshAcc (s.time.take 10)) s]
  | row :: rest, s =>
    if row.date = s.time.take 10 then updateAcc row s :: rest
    else row :: insertSample rest s

/-- One output record of aggregateHourlyToDaily (meanApparentTemp is accumulated by
the loop but dropped by the final projection in the source). -/
structure DailyRecord where
  date : String
  maxTemp : Option ℚ
  minTemp : Option ℚ
  meanHumidity : Option ℚ
  precipitationSum : ℚ
deriving DecidableEq

/-- The final per-day projection: sentinel extrema collapse to null, mean humidity
is null when count is zero, and the precipitation sum is returned as-is (zero when
no valid sample contributed). -/
def finishAcc (row : DayAcc) : DailyRecord :=
  ⟨row.date, row.maxTemp, row.minTemp,
   if row.count = 0 then none else some (row.sumHumidity / (row.count : ℚ)),
   row.sumPrecip⟩

/-- aggregateHourlyToDaily: fold the samples into the byDay map, project each row,
and sort by date (localeCompare on YYYY-MM-DD keys is lexicographic string order). -/
def aggregateHourlyToDaily (samples : List HourlySample) : List DailyRecord :=
  ((samples.foldl insertSample []).map finishAcc).insertionSort
    (fun a b => a.date ≤ b.date)

/-! Structural lemmas about the byDay fold. -/

theorem updateAcc_date (row : DayAcc) (s : HourlySample) :
    (updateAcc row s).date = row.date := by
  rcases s with ⟨t1, t2, t3, t4, t5⟩
  cases t2 <;> cases t3 <;> cases t4 <;> cases t5 <;> rfl

theorem updateAcc_maxTemp_none (row : DayAcc) (s : HourlySample) :
    (updateAcc row s).maxTemp = none ↔ row.maxTemp = none ∧ s.temp = none := by
  rcases s with ⟨t1, t2, t3, t4, t5⟩
  cases t2 <;> cases t3 <;> cases t4 <;> cases t5 <;> simp [updateAcc]

theorem updateAcc_minTemp_none (row : DayAcc) (s : HourlySample) :
    (updateAcc row s).minTemp = none ↔ row.minTemp = none ∧ s.temp = none := by
  rcases s with ⟨t1, t2, t3, t4, t5⟩
  cases t2 <;> cases t3 <;> cases t4 <;> cases t5 <;> simp [updateAcc]

theorem updateAcc_count (row : DayAcc) (s : HourlySample) :
    (updateAcc row s).count =
      row.count + (match s.humidity with | some _ => 1 | none => 0) := by
  rcases s with ⟨t1, t2, t3, t4, t5⟩
  cases t2 <;> cases t3 <;> cases t4 <;> cases t5 <;> simp [updateAcc]

theorem updateAcc_sumPrecip (row : DayAcc) (s : HourlySample) :
    (updateAcc row s).sumPrecip = row.sumPrecip + s.precip.getD 0 := by
  rcases s with ⟨t1, t2, t3, t4, t5⟩
  cases t2 <;> cases t3 <;> cases t4 <;> cases t5 <;> simp [updateAcc]

/-- byDay.get: the row of a given date. -/
def lookupAcc : List DayAcc → String → Option DayAcc
  | [], _ => none
  | row :: rest, d => if row.date = d then some row else lookupAcc rest d

/-- Per-date view of processing one sample. -/
def dayStep (d : String) (a : Option DayAcc) (s : HourlySample) : Option DayAcc :=
  if s.time.take 10 = d then some (updateAcc (a.getD (freshAcc d)) s) else a


theorem freshAcc_date (d : String) : (freshAcc d).date = d := rfl

theorem lookupAcc_insertSample (L : List DayAcc) (s : HourlySample) (d : String) :
    lookupAcc (insertSample L s) d = dayStep d (lookupAcc L d) s := by
  induction L with
  | nil =>
    show lookupAcc [updateAcc (freshAcc (s.time.take 10)) s] d = dayStep d none s
    unfold lookupAcc dayStep
    by_cases hd : s.time.take 10 = d
    · have hx : (updateAcc (freshAcc (s.time.take 10)) s).date = d := by
        rw [updateAcc_date, freshAcc_date]
        exact hd
      rw [if_pos hx, if_pos hd, hd]
      rfl
    · have hx : ¬ (updateAcc (freshAcc (s.time.take 10)) s).date = d := by
        rw [updateAcc_date, freshAcc_date]
        exact hd
      rw [if_neg hx, if_neg hd]
      rfl
  | cons row rest ih =>
    show lookupAcc (if row.date = s.time.take 10 then updateAcc row s :: rest
        else row :: insertSample rest s) d =
      dayStep d (if row.date = d then some row else lookupAcc rest d) s
    by_cases hrow : row.date = s.time.take 10
    · rw [if_pos hrow]
      show (if (updateAcc row s).date = d then some (updateAcc row s)
          else lookupAcc rest d) = _
      by_cases hd : s.time.take 10 = d
      · have h1 : (updateAcc row s).date = d := by
          rw [updateAcc_date, hrow]
          exact hd
        have h2 : row.date = d := hrow.trans hd
        rw [if_pos h1, if_pos h2]
        unfold dayStep
        rw [if_pos hd]
        rfl
      · have h1 : ¬ (updateAcc row s).date = d := by
          rw [updateAcc_date, hrow]
          exact hd
        have h2 : ¬ row.date = d := fun hh => hd (hrow.symm.trans hh)
        rw [if_neg h1, if_neg h2]
        unfold dayStep
        rw [if_neg hd]
    · rw [if_neg hrow]
      show (if row.date = d then some row else lookupAcc (insertSample rest s) d) = _
      by_cases hrd : row.date = d
      · have hd : ¬ s.time.take 10 = d := fun hh => hrow (hrd.trans hh.symm)
        rw [if_pos hrd, if_pos hrd]
        unfold dayStep
        rw [if_neg hd]
      · rw [if_neg hrd, if_neg hrd]
        exact ih

theorem lookupAcc_foldl (samples : List HourlySample) (L : List DayAcc) (d : String) :
    lookupAcc (samples.foldl insertSample L) d =
      samples.foldl (dayStep d) (lookupAcc L d) := by
  induction samples generalizing L with
  | nil => rfl
  | cons s ss ih =>
    simp only [List.foldl_cons]
    rw [ih, lookupAcc_insertSample]

theorem getD_freshAcc_maxTemp (a : Option DayAcc) (d : String) :
    (a.getD (freshAcc d)).maxTemp = a.bind DayAcc.maxTemp := by
  cases a <;> rfl

theorem getD_freshAcc_minTemp (a : Option DayAcc) (d : String) :
    (a.getD (freshAcc d)).minTemp = a.bind DayAcc.minTemp := by
  cases a <;> rfl

theorem getD_freshAcc_count (a : Option DayAcc) (d : String) :
    (a.getD (freshAcc d)).count = (a.map DayAcc.count).getD 0 := by
  cases a <;> rfl

theorem getD_freshAcc_sumPrecip (a : Option DayAcc) (d : String) :
    (a.getD (freshAcc d)).sumPrecip = (a.map DayAcc.sumPrecip).getD 0 := by
  cases a <;> rfl

theorem dayStep_some_bind_maxTemp (d : String) (a : Option DayAcc) (s : HourlySample) :
    ((some (updateAcc (a.getD (freshAcc d)) s)).bind DayAcc.maxTemp) =
      (updateAcc (a.getD (freshAcc d)) s).maxTemp := rfl

theorem dayStep_fold_maxTemp (d : String) (samples : List HourlySample) (a : Option DayAcc) :
    (samples.foldl (dayStep d) a).bind DayAcc.maxTemp = none ↔
      (a.bind DayAcc.maxTemp = none ∧
        ∀ s ∈ samples, s.time.take 10 = d → s.temp = none) := by
  induction samples generalizing a with
  | nil =>
    rw [List.foldl_nil]
    constructor
    · intro h1
      exact ⟨h1, fun s hs => absurd hs (List.not_mem_nil s)⟩
    · exact fun h => h.1
  | cons s ss ih =>
    rw [List.foldl_cons, ih]
    have hstep : (dayStep d a s).bind DayAcc.maxTemp = none ↔
        (a.bind DayAcc.maxTemp = none ∧ (s.time.take 10 = d → s.temp = none)) := by
      unfold dayStep
      by_cases hd : s.time.take 10 = d
      · rw [if_pos hd, dayStep_some_bind_maxTemp, updateAcc_maxTemp_none,
          getD_freshAcc_maxTemp]
        constructor
        · rintro ⟨h1, h2⟩
          exact ⟨h1, fun _ => h2⟩
        · rintro ⟨h1, h2⟩
          exact ⟨h1, h2 hd⟩
      · rw [if_neg hd]
        constructor
        · intro h1
          exact ⟨h1, fun hh => absurd hh hd⟩
        · exact fun h => h.1
    rw [hstep]
    constructor
    · rintro ⟨⟨h1, h2⟩, h3⟩
      refine ⟨h1, fun x hx => ?_⟩
      rcases List.mem_cons.mp hx with rfl | hx
      · exact fun _ => h2 (by assumption)
      · exact h3 x hx
    · rintro ⟨h1, h2⟩
      exact ⟨⟨h1, h2 s (List.mem_cons_self s ss)⟩,
        fun x hx => h2 x (List.mem_cons_of_mem s hx)⟩

theorem dayStep_some_bind_minTemp (d : String) (a : Option DayAcc) (s : HourlySample) :
    ((some (updateAcc (a.getD (freshAcc d)) s)).bind DayAcc.minTemp) =
      (updateAcc (a.getD (freshAcc d)) s).minTemp := rfl

theorem dayStep_fold_minTemp (d : String) (samples : List HourlySample) (a : Option DayAcc) :
    (samples.foldl (dayStep d) a).bind DayAcc.minTemp = none ↔
      (a.bind DayAcc.minTemp = none ∧
        ∀ s ∈ samples, s.time.take 10 = d → s.temp = none) := by
  induction samples generalizing a with
  | nil =>
    rw [List.foldl_nil]
    constructor
    · intro h1
      exact ⟨h1, fun s hs => absurd hs (List.not_mem_nil s)⟩
    · exact fun h => h.1
  | cons s ss ih =>
    rw [List.foldl_cons, ih]
    have hstep : (dayStep d a s).bind DayAcc.minTemp = none ↔
        (a.bind DayAcc.minTemp = none ∧ (s.time.take 10 = d → s.temp = none)) := by
      unfold dayStep
      by_cases hd : s.time.take 10 = d
      · rw [if_pos hd, dayStep_some_bind_minTemp, updateAcc_minTemp_none,
          getD_freshAcc_minTemp]
        constructor
        · rintro ⟨h1, h2⟩
          exact ⟨h1, fun _ => h2⟩
        · rintro ⟨h1, h2⟩
          exact ⟨h1, h2 hd⟩
      · rw [if_neg hd]
        constructor
        · intro h1
          exact ⟨h1, fun hh => absurd hh hd⟩
        · exact fun h => h.1
    rw [hstep]
    constructor
    · rintro ⟨⟨h1, h2⟩, h3⟩
      refine ⟨h1, fun x hx => ?_⟩
      rcases List.mem_cons.mp hx with rfl | hx
      · exact fun _ => h2 (by assumption)
      · exact h3 x hx
    · rintro ⟨h1, h2⟩
      exact ⟨⟨h1, h2 s (List.mem_cons_self s ss)⟩,
        fun x hx => h2 x (List.mem_cons_of_mem s hx)⟩

theorem dayStep_some_count (d : String) (a : Option DayAcc) (s : HourlySample) :
    (((some (updateAcc (a.getD (freshAcc d)) s)).map DayAcc.count).getD 0) =
      (updateAcc (a.getD (freshAcc d)) s).count := rfl

theorem dayStep_fold_count (d : String) (samples : List HourlySample) (a : Option DayAcc) :
    ((samples.foldl (dayStep d) a).map DayAcc.count).getD 0 = 0 ↔
      (((a.map DayAcc.count).getD 0 = 0) ∧
        ∀ s ∈ samples, s.time.take 10 = d → s.humidity = none) := by
  induction samples generalizing a with
  | nil =>
    rw [List.foldl_nil]
    constructor
    · intro h1
      exact ⟨h1, fun s hs => absurd hs (List.not_mem_nil s)⟩
    · exact fun h => h.1
  | cons s ss ih =>
    rw [List.foldl_cons, ih]
    have hstep : ((dayStep d a s).map DayAcc.count).getD 0 = 0 ↔
        (((a.map DayAcc.count).getD 0 = 0) ∧ (s.time.take 10 = d → s.humidity = none)) := by
      unfold dayStep
      by_cases hd : s.time.take 10 = d
      · cases hh : s.humidity with
        | none =>
          rw [if_pos hd, dayStep_some_count, updateAcc_count, getD_freshAcc_count, hh]
          show (a.map DayAcc.count).getD 0 + 0 = 0 ↔ _
          rw [Nat.add_zero]
          constructor
          · intro h1
            exact ⟨h1, fun _ => rfl⟩
          · exact fun h => h.1
        | some hv =>
          rw [if_pos hd, dayStep_some_count, updateAcc_count, getD_freshAcc_count, hh]
          show (a.map DayAcc.count).getD 0 + 1 = 0 ↔ _
          constructor
          · intro h1
            exact absurd h1 (by omega)
          · rintro ⟨h1, h2⟩
            exact Option.noConfusion (h2 hd)
      · rw [if_neg hd]
        constructor
        · intro h1
          exact ⟨h1, fun hh => absurd hh hd⟩
        · exact fun h => h.1
    rw [hstep]
    constructor
    · rintro ⟨⟨h1, h2⟩, h3⟩
      refine ⟨h1, fun x hx => ?_⟩
      rcases List.mem_cons.mp hx with rfl | hx
      · exact fun _ => h2 (by assumption)
      · exact h3 x hx
    · rintro ⟨h1, h2⟩
      exact ⟨⟨h1, h2 s (List.mem_cons_self s ss)⟩,
        fun x hx => h2 x (List.mem_cons_of_mem s hx)⟩

theorem dayStep_some_sumPrecip (d : String) (a : Option DayAcc) (s : HourlySample) :
    (((some (updateAcc (a.getD (freshAcc d)) s)).map DayAcc.sumPrecip).getD 0) =
      (updateAcc (a.getD (freshAcc d)) s).sumPrecip := rfl

theorem dayStep_fold_sumPrecip (d : String) (samples : List HourlySample) (a : Option DayAcc)
    (h : ∀ s ∈ samples, s.time.take 10 = d → s.precip = none) :
    ((samples.foldl (dayStep d) a).map DayAcc.sumPrecip).getD 0 =
      (a.map DayAcc.sumPrecip).getD 0 := by
  induction samples generalizing a with
  | nil => rfl
  | cons s ss ih =>
    simp only [List.foldl_cons]
    have hcond : ∀ x ∈ ss, x.time.take 10 = d → x.precip = none :=
      fun x hx => h x (List.mem_cons_of_mem s hx)
    have hstep : ((dayStep d a s).map DayAcc.sumPrecip).getD 0 =
        (a.map DayAcc.sumPrecip).getD 0 := by
      unfold dayStep
      by_cases hd : s.time.take 10 = d
      · have hp : s.precip = none := h s (List.mem_cons_self s ss) hd
        rw [if_pos hd, dayStep_some_sumPrecip, updateAcc_sumPrecip,
          getD_freshAcc_sumPrecip, hp]
        show (a.map DayAcc.sumPrecip).getD 0 + (0 : ℚ) = (a.map DayAcc.sumPrecip).getD 0
        rw [add_zero]
      · rw [if_neg hd]
    calc ((ss.foldl (dayStep d) (dayStep d a s)).map DayAcc.sumPrecip).getD 0
        = ((dayStep d a s).map DayAcc.sumPrecip).getD 0 := ih (dayStep d a s) hcond
      _ = (a.map DayAcc.sumPrecip).getD 0 := hstep

theorem dayStep_isSome_mono (d : String) (a : Option DayAcc) (s : HourlySample)
    (ha : a.isSome) : (dayStep d a s).isSome := by
  unfold dayStep
  by_cases hd : s.time.take 10 = d
  · rw [if_pos hd]
    rfl
  · rw [if_neg hd]
    exact ha

theorem foldl_dayStep_isSome_mono (d : String) (ss : List HourlySample) :
    ∀ a : Option DayAcc, a.isSome → (ss.foldl (dayStep d) a).isSome := by
  induction ss with
  | nil => exact fun a ha => ha
  | cons s ss ih =>
    intro a ha
    rw [List.foldl_cons]
    exact ih _ (dayStep_isSome_mono d a s ha)

theorem dayStep_fold_isSome (d : String) (samples : List HourlySample) (a : Option DayAcc)
    (h : ∃ s ∈ samples, s.time.take 10 = d) :
    (samples.foldl (dayStep d) a).isSome := by
  induction samples generalizing a with
  | nil => simp at h
  | cons s ss ih =>
    simp only [List.foldl_cons]
    rcases h with ⟨x, hx, hxd⟩
    rcases List.mem_cons.mp hx with rfl | hx
    · apply foldl_dayStep_isSome_mono
      unfold dayStep
      rw [if_pos hxd]
      rfl
    · exact ih _ ⟨x, hx, hxd⟩

theorem insertSample_cons_pos (row : DayAcc) (rest : List DayAcc) (s : HourlySample)
    (hrow : row.date = s.time.take 10) :
    insertSample (row :: rest) s = updateAcc row s :: rest := by
  show (if row.date = s.time.take 10 then updateAcc row s :: rest
      else row :: insertSample rest s) = _
  rw [if_pos hrow]

theorem insertSample_cons_neg (row : DayAcc) (rest : List DayAcc) (s : HourlySample)
    (hrow : ¬ row.date = s.time.take 10) :
    insertSample (row :: rest) s = row :: insertSample rest s := by
  show (if row.date = s.time.take 10 then updateAcc row s :: rest
      else row :: insertSample rest s) = _
  rw [if_neg hrow]

theorem insertSample_dates_subset (L : List DayAcc) (s : HourlySample) (x : String)
    (hx : x ∈ (insertSample L s).map DayAcc.date) :
    x ∈ L.map DayAcc.date ∨ x = s.time.take 10 := by
  induction L with
  | nil =>
    right
    rcases List.mem_map.mp hx with ⟨acc, hacc, rfl⟩
    rcases List.mem_singleton.mp hacc with rfl
    rw [updateAcc_date, freshAcc_date]
  | cons row rest ih =>
    by_cases hrow : row.date = s.time.take 10
    · rw [insertSample_cons_pos row rest s hrow] at hx
      rw [List.map_cons, updateAcc_date] at hx
      left
      exact hx
    · rw [insertSample_cons_neg row rest s hrow] at hx
      rw [List.map_cons] at hx
      rcases List.mem_cons.mp hx with rfl | hx
      · left
        exact List.mem_cons_self _ _
      · rcases ih hx with h | h
        · left
          exact List.mem_cons_of_mem _ h
        · right
          exact h

theorem insertSample_dates_nodup (L : List DayAcc) (s : HourlySample)
    (h : (L.map DayAcc.date).Nodup) : ((insertSample L s).map DayAcc.date).Nodup := by
  induction L with
  | nil =>
    show ([updateAcc (freshAcc (s.time.take 10)) s].map DayAcc.date).Nodup
    rw [List.map_singleton]
    exact List.nodup_singleton _
  | cons row rest ih =>
    rw [List.map_cons, List.nodup_cons] at h
    by_cases hrow : row.date = s.time.take 10
    · rw [insertSample_cons_pos row rest s hrow]
      rw [List.map_cons, updateAcc_date, List.nodup_cons]
      exact h
    · rw [insertSample_cons_neg row rest s hrow]
      rw [List.map_cons, List.nodup_cons]
      refine ⟨fun hmem => ?_, ih h.2⟩
      rcases insertSample_dates_subset rest s row.date hmem with hin | heq
      · exact h.1 hin
      · exact hrow heq

theorem byDay_dates_nodup (samples : List HourlySample) :
    ((samples.foldl insertSample []).map DayAcc.date).Nodup := by
  suffices h : ∀ L, (L.map DayAcc.date).Nodup →
      ((samples.foldl insertSample L).map DayAcc.date).Nodup by
    exact h [] (by simp)
  induction samples with
  | nil => exact fun L hL => hL
  | cons s ss ih =>
    intro L hL
    rw [List.foldl_cons]
    exact ih _ (insertSample_dates_nodup L s hL)

theorem lookupAcc_of_mem (L : List DayAcc) (acc : DayAcc)
    (hnd : (L.map DayAcc.date).Nodup) (hm : acc ∈ L) :
    lookupAcc L acc.date = some acc := by
  induction L with
  | nil => exact absurd hm (List.not_mem_nil acc)
  | cons row rest ih =>
    rw [List.map_cons, List.nodup_cons] at hnd
    rcases List.mem_cons.mp hm with rfl | hm
    · show (if acc.date = acc.date then some acc else lookupAcc rest acc.date) = some acc
      rw [if_pos rfl]
    · have hrow : ¬ row.date = acc.date := by
        intro hh
        have hmem : acc.date ∈ rest.map DayAcc.date := List.mem_map_of_mem DayAcc.date hm
        rw [← hh] at hmem
        exact hnd.1 hmem
      show (if row.date = acc.date then some row else lookupAcc rest acc.date) = some acc
      rw [if_neg hrow]
      exact ih hnd.2 hm

theorem lookupAcc_some_mem (L : List DayAcc) (d : String) (acc : DayAcc)
    (h : lookupAcc L d = some acc) : acc ∈ L ∧ acc.date = d := by
  induction L with
  | nil => exact absurd h (by intro hh; exact Option.noConfusion hh)
  | cons row rest ih =>
    rw [show lookupAcc (row :: rest) d =
        if row.date = d then some row else lookupAcc rest d from rfl] at h
    by_cases hr : row.date = d
    · rw [if_pos hr] at h
      rcases Option.some.inj h with rfl
      exact ⟨List.mem_cons_self _ _, hr⟩
    · rw [if_neg hr] at h
      rcases ih h with ⟨h1, h2⟩
      exact ⟨List.mem_cons_of_mem _ h1, h2⟩

theorem mem_agg (samples : List HourlySample) (r : DailyRecord)
    (hr : r ∈ aggregateHourlyToDaily samples) :
    ∃ acc, lookupAcc (samples.foldl insertSample []) r.date = some acc ∧ r = finishAcc acc := by
  unfold aggregateHourlyToDaily at hr
  have hr2 : r ∈ (samples.foldl insertSample []).map finishAcc :=
    (List.perm_insertionSort _ _).mem_iff.mp hr
  rcases List.mem_map.mp hr2 with ⟨acc, hacc, rfl⟩
  exact ⟨acc, lookupAcc_of_mem _ acc (byDay_dates_nodup samples) hacc, rfl⟩

theorem agg_mem_of_lookup (samples : List HourlySample) (d : String) (acc : DayAcc)
    (h : lookupAcc (samples.foldl insertSample []) d = some acc) :
    finishAcc acc ∈ aggregateHourlyToDaily samples ∧ (finishAcc acc).date = d := by
  rcases lookupAcc_some_mem _ _ _ h with ⟨hmem, hdate⟩
  constructor
  · unfold aggregateHourlyToDaily
    exact (List.perm_insertionSort _ _).mem_iff.mpr (List.mem_map_of_mem finishAcc hmem)
  · exact hdate

/-! Claim C2: zero valid samples for a field on a date. -/

/-- C2 counterexample: a date whose single sample has every field missing yields a
Daily Aggregate whose maxTemp, minTemp and meanHumidity are absent but whose
precipitationSum is the present number 0 — the summed-precipitation field is never
absent in the code (the output type carries a plain number), refuting the claim for
the precipitation field. -/
theorem daily_aggregate_precipitation_zero_counterexample :
    aggregateHourlyToDaily [⟨"2024-01-01T00:00", none, none, none, none⟩] =
      [⟨"2024-01-01", none, none, none, 0⟩] := by
  decide

/-- C2 (amended): for every observation series and every Daily Aggregate record, if
a field has zero valid (non-missing, non-NaN) samples on that date then max
temperature, min temperature and mean humidity are absent (null) — but the summed
precipitation is the present number zero, not an absent value. -/
theorem daily_aggregate_zero_valid_samples (samples : List HourlySample) (r : DailyRecord)
    (hr : r ∈ aggregateHourlyToDaily samples) :
    ((∀ s ∈ samples, s.time.take 10 = r.date → s.temp = none) →
      r.maxTemp = none ∧ r.minTemp = none) ∧
    ((∀ s ∈ samples, s.time.take 10 = r.date → s.humidity = none) →
      r.meanHumidity = none) ∧
    ((∀ s ∈ samples, s.time.take 10 = r.date → s.precip = none) →
      r.precipitationSum = 0) := by
  rcases mem_agg samples r hr with ⟨acc, hlook, rfl⟩
  rw [lookupAcc_foldl] at hlook
  refine ⟨fun hall => ?_, fun hall => ?_, fun hall => ?_⟩
  · have h1 : (samples.foldl (dayStep (finishAcc acc).date)
        (lookupAcc [] (finishAcc acc).date)).bind DayAcc.maxTemp = none :=
      (dayStep_fold_maxTemp _ samples _).mpr ⟨rfl, hall⟩
    have h2 : (samples.foldl (dayStep (finishAcc acc).date)
        (lookupAcc [] (finishAcc acc).date)).bind DayAcc.minTemp = none :=
      (dayStep_fold_minTemp _ samples _).mpr ⟨rfl, hall⟩
    rw [hlook] at h1 h2
    exact ⟨h1, h2⟩
  · have h1 : ((samples.foldl (dayStep (finishAcc acc).date)
        (lookupAcc [] (finishAcc acc).date)).map DayAcc.count).getD 0 = 0 :=
      (dayStep_fold_count _ samples _).mpr ⟨rfl, hall⟩
    rw [hlook] at h1
    have hcount : acc.count = 0 := h1
    show (if acc.count = 0 then none
        else some (acc.sumHumidity / (acc.count : ℚ))) = none
    rw [if_pos hcount]
  · have h1 : ((samples.foldl (dayStep (finishAcc acc).date)
        (lookupAcc [] (finishAcc acc).date)).map DayAcc.sumPrecip).getD 0 =
        ((lookupAcc [] (finishAcc acc).date).map DayAcc.sumPrecip).getD 0 :=
      dayStep_fold_sumPrecip _ samples _ hall
    rw [hlook] at h1
    exact h1

/-- C2 witness: the amended theorem applied to the all-missing single-sample series. -/
theorem daily_aggregate_zero_valid_samples_witness :
    (⟨"2024-01-01", none, none, none, 0⟩ : DailyRecord).maxTemp = none ∧
    (⟨"2024-01-01", none, none, none, 0⟩ : DailyRecord).precipitationSum = 0 :=
  ⟨((daily_aggregate_zero_valid_samples [⟨"2024-01-01T00:00", none, none, none, none⟩]
      ⟨"2024-01-01", none, none, none, 0⟩ (by decide)).1 (by decide)).1,
   (daily_aggregate_zero_valid_samples [⟨"2024-01-01T00:00", none, none, none, none⟩]
      ⟨"2024-01-01", none, none, none, 0⟩ (by decide)).2.2 (by decide)⟩

/-! Claim C7: a missing sample is excluded from its own field only. -/

/-- The present (non-missing, non-NaN) temperature values of date d, in series
order: a missing sample contributes nothing. Specification vocabulary for the
per-field exclusion theorem, not source code. -/
def validTemps (d : String) : List HourlySample → List ℚ
  | [] => []
  | s :: ss =>
    if s.time.take 10 = d then
      match s.temp with
      | some t => t :: validTemps d ss
      | none => validTemps d ss
    else validTemps d ss

/-- The present humidity values of date d, in series order. -/
def validHums (d : String) : List HourlySample → List ℚ
  | [] => []
  | s :: ss =>
    if s.time.take 10 = d then
      match s.humidity with
      | some h => h :: validHums d ss
      | none => validHums d ss
    else validHums d ss

/-- The present precipitation values of date d, in series order. -/
def validPrecips (d : String) : List HourlySample → List ℚ
  | [] => []
  | s :: ss =>
    if s.time.take 10 = d then
      match s.precip with
      | some p => p :: validPrecips d ss
      | none => validPrecips d ss
    else validPrecips d ss

/-- The Math.max accumulation over a value list, from a sentinel-or-value start. -/
def optMaxFold (o : Option ℚ) (l : List ℚ) : Option ℚ :=
  l.foldl (fun acc t => some (maxStep acc t)) o

/-- The Math.min accumulation over a value list, from a sentinel-or-value start. -/
def optMinFold (o : Option ℚ) (l : List ℚ) : Option ℚ :=
  l.foldl (fun acc t => some (minStep acc t)) o

theorem optMaxFold_cons (o : Option ℚ) (t : ℚ) (l : List ℚ) :
    optMaxFold o (t :: l) = optMaxFold (some (maxStep o t)) l := rfl

theorem optMinFold_cons (o : Option ℚ) (t : ℚ) (l : List ℚ) :
    optMinFold o (t :: l) = optMinFold (some (minStep o t)) l := rfl

theorem validTemps_cons_of_some (d : String) (s : HourlySample) (ss : List HourlySample)
    (t : ℚ) (hd : s.time.take 10 = d) (ht : s.temp = some t) :
    validTemps d (s :: ss) = t :: validTemps d ss := by
  show (if s.time.take 10 = d then
      match s.temp with
      | some t => t :: validTemps d ss
      | none => validTemps d ss
    else validTemps d ss) = _
  rw [if_pos hd, ht]

theorem validTemps_cons_of_none (d : String) (s : HourlySample) (ss : List HourlySample)
    (hd : s.time.take 10 = d) (ht : s.temp = none) :
    validTemps d (s :: ss) = validTemps d ss := by
  show (if s.time.take 10 = d then
      match s.temp with
      | some t => t :: validTemps d ss
      | none => validTemps d ss
    else validTemps d ss) = _
  rw [if_pos hd, ht]

theorem validTemps_cons_of_neg (d : String) (s : HourlySample) (ss : List HourlySample)
    (hd : ¬ s.time.take 10 = d) :
    validTemps d (s :: ss) = validTemps d ss := by
  show (if s.time.take 10 = d then
      match s.temp with
      | some t => t :: validTemps d ss
      | none => validTemps d ss
    else validTemps d ss) = _
  rw [if_neg hd]

theorem validHums_cons_of_some (d : String) (s : HourlySample) (ss : List HourlySample)
    (h : ℚ) (hd : s.time.take 10 = d) (hh : s.humidity = some h) :
    validHums d (s :: ss) = h :: validHums d ss := by
  show (if s.time.take 10 = d then
      match s.humidity with
      | some h => h :: validHums d ss
      | none => validHums d ss
    else validHums d ss) = _
  rw [if_pos hd, hh]

theorem validHums_cons_of_none (d : String) (s : HourlySample) (ss : List HourlySample)
    (hd : s.time.take 10 = d) (hh : s.humidity = none) :
    validHums d (s :: ss) = validHums d ss := by
  show (if s.time.take 10 = d then
      match s.humidity with
      | some h => h :: validHums d ss
      | none => validHums d ss
    else validHums d ss) = _
  rw [if_pos hd, hh]

theorem validHums_cons_of_neg (d : String) (s : HourlySample) (ss : List HourlySample)
    (hd : ¬ s.time.take 10 = d) :
    validHums d (s :: ss) = validHums d ss := by
  show (if s.time.take 10 = d then
      match s.humidity with
      | some h => h :: validHums d ss
      | none => validHums d ss
    else validHums d ss) = _
  rw [if_neg hd]

theorem validPrecips_cons_of_some (d : String) (s : HourlySample) (ss : List HourlySample)
    (p : ℚ) (hd : s.time.take 10 = d) (hp : s.precip = some p) :
    validPrecips d (s :: ss) = p :: validPrecips d ss := by
  show (if s.time.take 10 = d then
      match s.precip with
      | some p => p :: validPrecips d ss
      | none => validPrecips d ss
    else validPrecips d ss) = _
  rw [if_pos hd, hp]

theorem validPrecips_cons_of_none (d : String) (s : HourlySample) (ss : List HourlySample)
    (hd : s.time.take 10 = d) (hp : s.precip = none) :
    validPrecips d (s :: ss) = validPrecips d ss := by
  show (if s.time.take 10 = d then
      match s.precip with
      | some p => p :: validPrecips d ss
      | none => validPrecips d ss
    else validPrecips d ss) = _
  rw [if_pos hd, hp]

theorem validPrecips_cons_of_neg (d : String) (s : HourlySample) (ss : List HourlySample)
    (hd : ¬ s.time.take 10 = d) :
    validPrecips d (s :: ss) = validPrecips d ss := by
  show (if s.time.take 10 = d then
      match s.precip with
      | some p => p :: validPrecips d ss
      | none => validPrecips d ss
    else validPrecips d ss) = _
  rw [if_neg hd]

theorem updateAcc_maxTemp_of_some (row : DayAcc) (s : HourlySample) (t : ℚ)
    (ht : s.temp = some t) : (updateAcc row s).maxTemp = some (maxStep row.maxTemp t) := by
  rcases s with ⟨t1, t2, t3, t4, t5⟩
  subst ht
  cases t3 <;> cases t4 <;> cases t5 <;> rfl

theorem updateAcc_maxTemp_of_none (row : DayAcc) (s : HourlySample)
    (ht : s.temp = none) : (updateAcc row s).maxTemp = row.maxTemp := by
  rcases s with ⟨t1, t2, t3, t4, t5⟩
  subst ht
  cases t3 <;> cases t4 <;> cases t5 <;> rfl

theorem updateAcc_minTemp_of_some (row : DayAcc) (s : HourlySample) (t : ℚ)
    (ht : s.temp = some t) : (updateAcc row s).minTemp = some (minStep row.minTemp t) := by
  rcases s with ⟨t1, t2, t3, t4, t5⟩
  subst ht
  cases t3 <;> cases t4 <;> cases t5 <;> rfl

theorem updateAcc_minTemp_of_none (row : DayAcc) (s : HourlySample)
    (ht : s.temp = none) : (updateAcc row s).minTemp = row.minTemp := by
  rcases s with ⟨t1, t2, t3, t4, t5⟩
  subst ht
  cases t3 <;> cases t4 <;> cases t5 <;> rfl

theorem updateAcc_count_of_some (row : DayAcc) (s : HourlySample) (h : ℚ)
    (hh : s.humidity = some h) : (updateAcc row s).count = row.count + 1 := by
  rcases s with ⟨t1, t2, t3, t4, t5⟩
  subst hh
  cases t2 <;> cases t4 <;> cases t5 <;> rfl

theorem updateAcc_count_of_none (row : DayAcc) (s : HourlySample)
    (hh : s.humidity = none) : (updateAcc row s).count = row.count := by
  rcases s with ⟨t1, t2, t3, t4, t5⟩
  subst hh
  cases t2 <;> cases t4 <;> cases t5 <;> rfl

theorem updateAcc_sumHumidity (row : DayAcc) (s : HourlySample) :
    (updateAcc row s).sumHumidity = row.sumHumidity + s.humidity.getD 0 := by
  rcases s with ⟨t1, t2, t3, t4, t5⟩
  cases t2 <;> cases t3 <;> cases t4 <;> cases t5 <;> simp [updateAcc]

theorem getD_freshAcc_sumHumidity (a : Option DayAcc) (d : String) :
    (a.getD (freshAcc d)).sumHumidity = (a.map DayAcc.sumHumidity).getD 0 := by
  cases a <;> rfl

theorem dayStep_some_sumHumidity (d : String) (a : Option DayAcc) (s : HourlySample) :
    (((some (updateAcc (a.getD (freshAcc d)) s)).map DayAcc.sumHumidity).getD 0) =
      (updateAcc (a.getD (freshAcc d)) s).sumHumidity := rfl

theorem dayStep_fold_maxTemp_val (d : String) (samples : List HourlySample)
    (a : Option DayAcc) :
    (samples.foldl (dayStep d) a).bind DayAcc.maxTemp =
      optMaxFold (a.bind DayAcc.maxTemp) (validTemps d samples) := by
  induction samples generalizing a with
  | nil => rfl
  | cons s ss ih =>
    rw [List.foldl_cons, ih]
    by_cases hd : s.time.take 10 = d
    · cases ht : s.temp with
      | some t =>
        rw [validTemps_cons_of_some d s ss t hd ht, optMaxFold_cons]
        have hds : (dayStep d a s).bind DayAcc.maxTemp =
            some (maxStep (a.bind DayAcc.maxTemp) t) := by
          unfold dayStep
          rw [if_pos hd, dayStep_some_bind_maxTemp,
            updateAcc_maxTemp_of_some _ _ t ht, getD_freshAcc_maxTemp]
        rw [hds]
      | none =>
        rw [validTemps_cons_of_none d s ss hd ht]
        have hds : (dayStep d a s).bind DayAcc.maxTemp = a.bind DayAcc.maxTemp := by
          unfold dayStep
          rw [if_pos hd, dayStep_some_bind_maxTemp,
            updateAcc_maxTemp_of_none _ _ ht, getD_freshAcc_maxTemp]
        rw [hds]
    · rw [validTemps_cons_of_neg d s ss hd]
      have hds : (dayStep d a s).bind DayAcc.maxTemp = a.bind DayAcc.maxTemp := by
        unfold dayStep
        rw [if_neg hd]
      rw [hds]

theorem dayStep_fold_minTemp_val (d : String) (samples : List HourlySample)
    (a : Option DayAcc) :
    (samples.foldl (dayStep d) a).bind DayAcc.minTemp =
      optMinFold (a.bind DayAcc.minTemp) (validTemps d samples) := by
  induction samples generalizing a with
  | nil => rfl
  | cons s ss ih =>
    rw [List.foldl_cons, ih]
    by_cases hd : s.time.take 10 = d
    · cases ht : s.temp with
      | some t =>
        rw [validTemps_cons_of_some d s ss t hd ht, optMinFold_cons]
        have hds : (dayStep d a s).bind DayAcc.minTemp =
            some (minStep (a.bind DayAcc.minTemp) t) := by
          unfold dayStep
          rw [if_pos hd, dayStep_some_bind_minTemp,
            updateAcc_minTemp_of_some _ _ t ht, getD_freshAcc_minTemp]
        rw [hds]
      | none =>
        rw [validTemps_cons_of_none d s ss hd ht]
        have hds : (dayStep d a s).bind DayAcc.minTemp = a.bind DayAcc.minTemp := by
          unfold dayStep
          rw [if_pos hd, dayStep_some_bind_minTemp,
            updateAcc_minTemp_of_none _ _ ht, getD_freshAcc_minTemp]
        rw [hds]
    · rw [validTemps_cons_of_neg d s ss hd]
      have hds : (dayStep d a s).bind DayAcc.minTemp = a.bind DayAcc.minTemp := by
        unfold dayStep
        rw [if_neg hd]
      rw [hds]

theorem dayStep_fold_count_val (d : String) (samples : List HourlySample)
    (a : Option DayAcc) :
    ((samples.foldl (dayStep d) a).map DayAcc.count).getD 0 =
      ((a.map DayAcc.count).getD 0) + (validHums d samples).length := by
  induction samples generalizing a with
  | nil => rfl
  | cons s ss ih =>
    rw [List.foldl_cons, ih]
    by_cases hd : s.time.take 10 = d
    · cases hh : s.humidity with
      | some hv =>
        rw [validHums_cons_of_some d s ss hv hd hh, List.length_cons]
        have hds : ((dayStep d a s).map DayAcc.count).getD 0 =
            ((a.map DayAcc.count).getD 0) + 1 := by
          unfold dayStep
          rw [if_pos hd, dayStep_some_count,
            updateAcc_count_of_some _ _ hv hh, getD_freshAcc_count]
        rw [hds]
        omega
      | none =>
        rw [validHums_cons_of_none d s ss hd hh]
        have hds : ((dayStep d a s).map DayAcc.count).getD 0 =
            (a.map DayAcc.count).getD 0 := by
          unfold dayStep
          rw [if_pos hd, dayStep_some_count, updateAcc_count_of_none _ _ hh,
            getD_freshAcc_count]
        rw [hds]
    · rw [validHums_cons_of_neg d s ss hd]
      have hds : ((dayStep d a s).map DayAcc.count).getD 0 =
          (a.map DayAcc.count).getD 0 := by
        unfold dayStep
        rw [if_neg hd]
      rw [hds]

theorem dayStep_fold_sumHumidity_val (d : String) (samples : List HourlySample)
    (a : Option DayAcc) :
    ((samples.foldl (dayStep d) a).map DayAcc.sumHumidity).getD 0 =
      ((a.map DayAcc.sumHumidity).getD 0) + (validHums d samples).sum := by
  induction samples generalizing a with
  | nil => exact (add_zero _).symm
  | cons s ss ih =>
    rw [List.foldl_cons, ih]
    by_cases hd : s.time.take 10 = d
    · cases hh : s.humidity with
      | some hv =>
        rw [validHums_cons_of_some d s ss hv hd hh, List.sum_cons]
        have hds : ((dayStep d a s).map DayAcc.sumHumidity).getD 0 =
            ((a.map DayAcc.sumHumidity).getD 0) + hv := by
          unfold dayStep
          rw [if_pos hd, dayStep_some_sumHumidity, updateAcc_sumHumidity,
            getD_freshAcc_sumHumidity, hh]
          rfl
        rw [hds, add_assoc]
      | none =>
        rw [validHums_cons_of_none d s ss hd hh]
        have hds : ((dayStep d a s).map DayAcc.sumHumidity).getD 0 =
            (a.map DayAcc.sumHumidity).getD 0 := by
          unfold dayStep
          rw [if_pos hd, dayStep_some_sumHumidity, updateAcc_sumHumidity,
            getD_freshAcc_sumHumidity, hh]
          exact add_zero _
        rw [hds]
    · rw [validHums_cons_of_neg d s ss hd]
      have hds : ((dayStep d a s).map DayAcc.sumHumidity).getD 0 =
          (a.map DayAcc.sumHumidity).getD 0 := by
        unfold dayStep
        rw [if_neg hd]
      rw [hds]

theorem dayStep_fold_sumPrecip_val (d : String) (samples : List HourlySample)
    (a : Option DayAcc) :
    ((samples.foldl (dayStep d) a).map DayAcc.sumPrecip).getD 0 =
      ((a.map DayAcc.sumPrecip).getD 0) + (validPrecips d samples).sum := by
  induction samples generalizing a with
  | nil => exact (add_zero _).symm
  | cons s ss ih =>
    rw [List.foldl_cons, ih]
    by_cases hd : s.time.take 10 = d
    · cases hp : s.precip with
      | some pv =>
        rw [validPrecips_cons_of_some d s ss pv hd hp, List.sum_cons]
        have hds : ((dayStep d a s).map DayAcc.sumPrecip).getD 0 =
            ((a.map DayAcc.sumPrecip).getD 0) + pv := by
          unfold dayStep
          rw [if_pos hd, dayStep_some_sumPrecip, updateAcc_sumPrecip,
            getD_freshAcc_sumPrecip, hp]
          rfl
        rw [hds, add_assoc]
      | none =>
        rw [validPrecips_cons_of_none d s ss hd hp]
        have hds : ((dayStep d a s).map DayAcc.sumPrecip).getD 0 =
            (a.map DayAcc.sumPrecip).getD 0 := by
          unfold dayStep
          rw [if_pos hd, dayStep_some_sumPrecip, updateAcc_sumPrecip,
            getD_freshAcc_sumPrecip, hp]
          exact add_zero _
        rw [hds]
    · rw [validPrecips_cons_of_neg d s ss hd]
      have hds : ((dayStep d a s).map DayAcc.sumPrecip).getD 0 =
          (a.map DayAcc.sumPrecip).getD 0 := by
        unfold dayStep
        rw [if_neg hd]
      rw [hds]

/-- Every field of an output record is determined by the valid samples of its own
field on its date alone. -/
theorem agg_field_values (samples : List HourlySample) (r : DailyRecord)
    (hr : r ∈ aggregateHourlyToDaily samples) :
    r.maxTemp = optMaxFold none (validTemps r.date samples) ∧
    r.minTemp = optMinFold none (validTemps r.date samples) ∧
    r.meanHumidity = (if (validHums r.date samples).length = 0 then none
      else some ((validHums r.date samples).sum /
        ((validHums r.date samples).length : ℚ))) ∧
    r.precipitationSum = (validPrecips r.date samples).sum := by
  rcases mem_agg samples r hr with ⟨acc, hlook, rfl⟩
  rw [lookupAcc_foldl] at hlook
  refine ⟨?_, ?_, ?_, ?_⟩
  · have h := dayStep_fold_maxTemp_val (finishAcc acc).date samples
      (lookupAcc [] (finishAcc acc).date)
    rw [hlook] at h
    exact h
  · have h := dayStep_fold_minTemp_val (finishAcc acc).date samples
      (lookupAcc [] (finishAcc acc).date)
    rw [hlook] at h
    exact h
  · have hc := dayStep_fold_count_val (finishAcc acc).date samples
      (lookupAcc [] (finishAcc acc).date)
    have hs := dayStep_fold_sumHumidity_val (finishAcc acc).date samples
      (lookupAcc [] (finishAcc acc).date)
    rw [hlook] at hc hs
    have hcount : acc.count = 0 + (validHums (finishAcc acc).date samples).length := hc
    have hsum : acc.sumHumidity = 0 + (validHums (finishAcc acc).date samples).sum := hs
    rw [Nat.zero_add] at hcount
    rw [zero_add] at hsum
    show (if acc.count = 0 then none else some (acc.sumHumidity / (acc.count : ℚ))) = _
    rw [hcount, hsum]
  · have hp := dayStep_fold_sumPrecip_val (finishAcc acc).date samples
      (lookupAcc [] (finishAcc acc).date)
    rw [hlook] at hp
    have hsum : acc.sumPrecip = 0 + (validPrecips (finishAcc acc).date samples).sum := hp
    rw [zero_add] at hsum
    exact hsum


/-- A date with any valid sample of a field yields a record with that field
non-absent, whatever the other samples miss. -/
theorem valid_sample_forces_nonabsent (samples : List HourlySample)
    (d : String) :
    ((∃ s ∈ samples, s.time.take 10 = d ∧ s.temp ≠ none) →
      ∃ r ∈ aggregateHourlyToDaily samples,
        r.date = d ∧ r.maxTemp ≠ none ∧ r.minTemp ≠ none) ∧
    ((∃ s ∈ samples, s.time.take 10 = d ∧ s.humidity ≠ none) →
      ∃ r ∈ aggregateHourlyToDaily samples, r.date = d ∧ r.meanHumidity ≠ none) := by
  constructor
  · rintro ⟨s0, hs0, hd0, ht0⟩
    have hsome : (samples.foldl (dayStep d) (lookupAcc [] d)).isSome :=
      dayStep_fold_isSome d samples _ ⟨s0, hs0, hd0⟩
    rcases Option.isSome_iff_exists.mp hsome with ⟨acc, hacc⟩
    have hlook : lookupAcc (samples.foldl insertSample []) d = some acc := by
      rw [lookupAcc_foldl]
      exact hacc
    rcases agg_mem_of_lookup samples d acc hlook with ⟨hmem, hdate⟩
    refine ⟨finishAcc acc, hmem, hdate, fun hnone => ?_, fun hnone => ?_⟩
    · have hfold : (samples.foldl (dayStep d) (lookupAcc [] d)).bind DayAcc.maxTemp = none := by
        rw [hacc]
        exact hnone
      have hall := (dayStep_fold_maxTemp d samples _).mp hfold
      exact ht0 (hall.2 s0 hs0 hd0)
    · have hfold : (samples.foldl (dayStep d) (lookupAcc [] d)).bind DayAcc.minTemp = none := by
        rw [hacc]
        exact hnone
      have hall := (dayStep_fold_minTemp d samples _).mp hfold
      exact ht0 (hall.2 s0 hs0 hd0)
  · rintro ⟨s0, hs0, hd0, hh0⟩
    have hsome : (samples.foldl (dayStep d) (lookupAcc [] d)).isSome :=
      dayStep_fold_isSome d samples _ ⟨s0, hs0, hd0⟩
    rcases Option.isSome_iff_exists.mp hsome with ⟨acc, hacc⟩
    have hlook : lookupAcc (samples.foldl insertSample []) d = some acc := by
      rw [lookupAcc_foldl]
      exact hacc
    rcases agg_mem_of_lookup samples d acc hlook with ⟨hmem, hdate⟩
    refine ⟨finishAcc acc, hmem, hdate, fun hnone => ?_⟩
    have hnone2 : (if acc.count = 0 then (none : Option ℚ)
        else some (acc.sumHumidity / (acc.count : ℚ))) = none := hnone
    by_cases hc : acc.count = 0
    · have hfold : ((samples.foldl (dayStep d) (lookupAcc [] d)).map DayAcc.count).getD 0 = 0 := by
        rw [hacc]
        exact hc
      have hall := (dayStep_fold_count d samples _).mp hfold
      exact hh0 (hall.2 s0 hs0 hd0)
    · rw [if_neg hc] at hnone2
      exact Option.noConfusion hnone2

/-- C7: a missing/NaN sample is excluded from sums, means and extrema for its own
field only and does not null out other fields of the same timestamp. Value level:
every field of every Daily Aggregate record is a function of the valid samples of
that field on that date alone — max/min temperature are the Math.max/Math.min fold
over the valid temperatures, mean humidity is the sum of the valid humidities
divided by their count (missing samples appear in neither numerator nor
denominator), and the precipitation sum is the sum of the valid precipitations.
In particular a date with a missing-temperature sample still yields non-absent
max/min temperature whenever any other sample on that date has a valid
temperature, and likewise for humidity. -/
theorem missing_sample_excluded_from_own_field_only (samples : List HourlySample) :
    (∀ r ∈ aggregateHourlyToDaily samples,
      r.maxTemp = optMaxFold none (validTemps r.date samples) ∧
      r.minTemp = optMinFold none (validTemps r.date samples) ∧
      r.meanHumidity = (if (validHums r.date samples).length = 0 then none
        else some ((validHums r.date samples).sum /
          ((validHums r.date samples).length : ℚ))) ∧
      r.precipitationSum = (validPrecips r.date samples).sum) ∧
    (∀ d : String,
      ((∃ s ∈ samples, s.time.take 10 = d ∧ s.temp ≠ none) →
        ∃ r ∈ aggregateHourlyToDaily samples,
          r.date = d ∧ r.maxTemp ≠ none ∧ r.minTemp ≠ none) ∧
      ((∃ s ∈ samples, s.time.take 10 = d ∧ s.humidity ≠ none) →
        ∃ r ∈ aggregateHourlyToDaily samples, r.date = d ∧ r.meanHumidity ≠ none)) :=
  ⟨fun r hr => agg_field_values samples r hr,
   fun d => valid_sample_forces_nonabsent samples d⟩

/-- C7 witness: the theorem applied to a two-sample series — the first sample
misses every field, the second carries only temperature 20; the date record has
max/min temperature exactly the Math.max/Math.min fold of the one valid
temperature, absent mean humidity (no valid humidity is counted), and
precipitation sum over the empty valid list, and the existential part is
discharged at the valid-temperature sample. -/
theorem missing_sample_excluded_witness :
    ((⟨"2024-07-01", some 20, some 20, none, 0⟩ : DailyRecord).maxTemp =
        optMaxFold none (validTemps "2024-07-01"
          [⟨"2024-07-01T00:00", none, none, none, none⟩,
           ⟨"2024-07-01T01:00", some 20, none, none, none⟩]) ∧
      (⟨"2024-07-01", some 20, some 20, none, 0⟩ : DailyRecord).minTemp =
        optMinFold none (validTemps "2024-07-01"
          [⟨"2024-07-01T00:00", none, none, none, none⟩,
           ⟨"2024-07-01T01:00", some 20, none, none, none⟩]) ∧
      (⟨"2024-07-01", some 20, some 20, none, 0⟩ : DailyRecord).meanHumidity =
        (if (validHums "2024-07-01"
            [⟨"2024-07-01T00:00", none, none, none, none⟩,
             ⟨"2024-07-01T01:00", some 20, none, none, none⟩]).length = 0 then none
          else some ((validHums "2024-07-01"
              [⟨"2024-07-01T00:00", none, none, none, none⟩,
               ⟨"2024-07-01T01:00", some 20, none, none, none⟩]).sum /
            ((validHums "2024-07-01"
              [⟨"2024-07-01T00:00", none, none, none, none⟩,
               ⟨"2024-07-01T01:00", some 20, none, none, none⟩]).length : ℚ))) ∧
      (⟨"2024-07-01", some 20, some 20, none, 0⟩ : DailyRecord).precipitationSum =
        (validPrecips "2024-07-01"
          [⟨"2024-07-01T00:00", none, none, none, none⟩,
           ⟨"2024-07-01T01:00", some 20, none, none, none⟩]).sum) ∧
    (∃ r ∈ aggregateHourlyToDaily
        [⟨"2024-07-01T00:00", none, none, none, none⟩,
         ⟨"2024-07-01T01:00", some 20, none, none, none⟩],
      r.date = "2024-07-01" ∧ r.maxTemp ≠ none ∧ r.minTemp ≠ none) :=
  ⟨(missing_sample_excluded_from_own_field_only
      [⟨"2024-07-01T00:00", none, none, none, none⟩,
       ⟨"2024-07-01T01:00", some 20, none, none, none⟩]).1
      ⟨"2024-07-01", some 20, some 20, none, 0⟩ (by decide),
   ((missing_sample_excluded_from_own_field_only
      [⟨"2024-07-01T00:00", none, none, none, none⟩,
       ⟨"2024-07-01T01:00", some 20, none, none, none⟩]).2 "2024-07-01").1
    ⟨⟨"2024-07-01T01:00", some 20, none, none, none⟩, by decide, by decide, by decide⟩⟩

/-! The year heatmap: buildYearHeatmapSvg in chart.js. -/

/-- Insertion into the JS Set of date strings (keeps the first occurrence, in
insertion order). -/
def setInsert (acc : List String) (d : String) : List String :=
  if d ∈ acc then acc else acc ++ [d]

/-- The sorted list of distinct dates of the series: every `time[i].slice(0, 10)`
collected into a Set, then Array.from(set).sort() — lexicographic string sort. -/
def heatmapDates (samples : List HourlySample) : List String :=
  ((samples.map (fun s => s.time.take 10)).foldl setInsert []).insertionSort (· ≤ ·)

/-- Decimal value of the leading digit run of a character list (the parseInt body
once a digit has been seen). -/
def digitPrefixVal : List Char → Nat → Nat
  | [], acc => acc
  | c :: cs, acc =>
    if 48 ≤ c.toNat ∧ c.toNat ≤ 57 then digitPrefixVal cs (acc * 10 + (c.toNat - 48))
    else acc

/-- `parseInt(slice, 10)` on a short slice: the value of the longest leading digit
run, NaN (`none`) when the slice does not start with a digit. -/
def parseIntSlice (cs : List Char) : Option Nat :=
  match cs with
  | [] => none
  | c :: _ =>
    if 48 ≤ c.toNat ∧ c.toNat ≤ 57 then some (digitPrefixVal cs 0) else none

/-- `parseInt(iso.slice(11, 13), 10)`: the two characters after the T parsed as a
number; a non-numeric result (NaN) is `none`. -/
def parseHour (t : String) : Option Nat := parseIntSlice ((t.drop 11).take 2).data

/-- Hour-to-column mapping: `Math.min(23, Math.max(0, hour))` (columns 0..23,
midnight left, noon at column 12). -/
def hourToCol (h : Nat) : Nat := min 23 (max 0 h)

/-- The day × hour grid. -/
abbrev HeatGrid := List (List (Option ℚ))

/-- `grid[row][col] = t` (row is always in range; col is clamped to 0..23). -/
def setCell (g : HeatGrid) (r c : Nat) (v : ℚ) : HeatGrid :=
  g.set r ((g.getD r []).set c (some v))

/-- The heatmap fill loop body for one sample: skip when the date is not a row
(`if (row == null) continue`), when the parsed hour is NaN (the JS assignment
`grid[row][NaN]` touches no 0..23 cell of the returned grid), or when the
temperature is missing/NaN; otherwise write the temperature at
(row of date, hourToCol hour). The minT/maxT tracking of the source is omitted:
those variables do not influence the emitted grid cells. -/
def fillStep (dates : List String) (g : HeatGrid) (s : HourlySample) : HeatGrid :=
  match dates.findIdx? (· == s.time.take 10) with
  | none => g
  | some row =>
    match parseHour s.time with
    | none => g
    | some h =>
      match s.temp with
      | some t => setCell g row (hourToCol h) t
      | none => g

/-- The grid-building part of buildYearHeatmapSvg: sorted distinct dates as rows,
24 columns per row, filled from the samples. -/
def buildYearHeatmapGrid (samples : List HourlySample) : List String × HeatGrid :=
  let dates := heatmapDates samples
  (dates,
   samples.foldl (fillStep dates) (List.replicate dates.length (List.replicate 24 none)))

theorem setInsert_mem (acc : List String) (x d : String) :
    d ∈ setInsert acc x ↔ d ∈ acc ∨ d = x := by
  unfold setInsert
  by_cases hm : x ∈ acc
  · rw [if_pos hm]
    constructor
    · exact fun h => Or.inl h
    · rintro (h | rfl)
      · exact h
      · exact hm
  · rw [if_neg hm]
    constructor
    · intro h
      rcases List.mem_append.mp h with h | h
      · exact Or.inl h
      · exact Or.inr (List.mem_singleton.mp h)
    · rintro (h | rfl)
      · exact List.mem_append_left _ h
      · exact List.mem_append_right _ (List.mem_singleton.mpr rfl)

theorem setInsert_nodup (acc : List String) (x : String) (h : acc.Nodup) :
    (setInsert acc x).Nodup := by
  unfold setInsert
  by_cases hm : x ∈ acc
  · rw [if_pos hm]
    exact h
  · rw [if_neg hm]
    rw [List.nodup_append]
    exact ⟨h, List.nodup_singleton x, fun a ha hb => hm ((List.mem_singleton.mp hb) ▸ ha)⟩

theorem foldl_setInsert_nodup (l : List String) :
    ∀ acc : List String, acc.Nodup → (l.foldl setInsert acc).Nodup := by
  induction l with
  | nil => exact fun acc h => h
  | cons x xs ih =>
    intro acc h
    rw [List.foldl_cons]
    exact ih _ (setInsert_nodup acc x h)

theorem foldl_setInsert_mem (l : List String) :
    ∀ (acc : List String) (d : String), d ∈ l.foldl setInsert acc ↔ d ∈ acc ∨ d ∈ l := by
  induction l with
  | nil =>
    intro acc d
    simp
  | cons x xs ih =>
    intro acc d
    rw [List.foldl_cons]
    rw [ih (setInsert acc x) d, setInsert_mem]
    constructor
    · rintro ((h | rfl) | h)
      · exact Or.inl h
      · exact Or.inr (List.mem_cons_self _ _)
      · exact Or.inr (List.mem_cons_of_mem _ h)
    · rintro (h | h)
      · exact Or.inl (Or.inl h)
      · rcases List.mem_cons.mp h with rfl | h
        · exact Or.inl (Or.inr rfl)
        · exact Or.inr h

theorem heatmapDates_nodup (samples : List HourlySample) : (heatmapDates samples).Nodup :=
  (List.perm_insertionSort _ _).symm.nodup
    (foldl_setInsert_nodup _ [] List.nodup_nil)

theorem heatmapDates_sorted (samples : List HourlySample) :
    (heatmapDates samples).Sorted (· ≤ ·) :=
  List.sorted_insertionSort _ _

theorem heatmapDates_mem (samples : List HourlySample) (d : String) :
    d ∈ heatmapDates samples ↔ ∃ s ∈ samples, s.time.take 10 = d := by
  unfold heatmapDates
  rw [(List.perm_insertionSort _ _).mem_iff, foldl_setInsert_mem]
  constructor
  · rintro (h | h)
    · exact absurd h (List.not_mem_nil d)
    · rcases List.mem_map.mp h with ⟨s, hs, hsd⟩
      exact ⟨s, hs, hsd⟩
  · rintro ⟨s, hs, hsd⟩
    exact Or.inr (List.mem_map.mpr ⟨s, hs, hsd⟩)

theorem fillStep_length (dates : List String) (g : HeatGrid) (s : HourlySample) :
    (fillStep dates g s).length = g.length := by
  unfold fillStep
  cases h1 : dates.findIdx? (· == s.time.take 10) with
  | none => rfl
  | some row =>
    cases h2 : parseHour s.time with
    | none => rfl
    | some h =>
      cases h3 : s.temp with
      | none => rfl
      | some t =>
        show (setCell g row (hourToCol h) t).length = g.length
        unfold setCell
        rw [List.length_set]

theorem foldl_fillStep_length (dates : List String) (samples : List HourlySample) :
    ∀ g : HeatGrid, (samples.foldl (fillStep dates) g).length = g.length := by
  induction samples with
  | nil => exact fun g => rfl
  | cons s ss ih =>
    intro g
    rw [List.foldl_cons, ih (fillStep dates g s), fillStep_length]

/-- C8: the Year Heatmap grid has exactly one row per distinct calendar date present
in the source series (even if fewer than 365), rows ordered by date, and a sample is
placed in the column equal to its hour-of-day exactly: hourToCol is the identity on
0..23 (the noon-centered framing is only a labeling convention), and the fill step
writes a valid sample at (row of its date, its hour). -/
theorem year_heatmap_grid_structure (samples : List HourlySample) :
    (heatmapDates samples).Nodup ∧
    (heatmapDates samples).Sorted (· ≤ ·) ∧
    (∀ d, d ∈ heatmapDates samples ↔ ∃ s ∈ samples, s.time.take 10 = d) ∧
    (buildYearHeatmapGrid samples).2.length = (heatmapDates samples).length ∧
    (∀ h : Nat, h ≤ 23 → hourToCol h = h) ∧
    (∀ (dates : List String) (g : HeatGrid) (s : HourlySample) (row h : Nat) (t : ℚ),
      dates.findIdx? (· == s.time.take 10) = some row →
      parseHour s.time = some h →
      s.temp = some t →
      fillStep dates g s = setCell g row (hourToCol h) t) := by
  refine ⟨heatmapDates_nodup samples, heatmapDates_sorted samples,
    heatmapDates_mem samples, ?_, ?_, ?_⟩
  · show (samples.foldl (fillStep (heatmapDates samples))
        (List.replicate (heatmapDates samples).length (List.replicate 24 none))).length =
      (heatmapDates samples).length
    rw [foldl_fillStep_length, List.length_replicate]
  · intro h hh
    unfold hourToCol
    rw [Nat.max_eq_right (Nat.zero_le h), Nat.min_eq_right hh]
  · intro dates g s row h t h1 h2 h3
    unfold fillStep
    rw [h1, h2, h3]

/-- C8 witness: the structure theorem applied at a two-sample series — hour 5 maps
to column 5, and the fill step places the 20-degree sample of hour 01 at
(row 0, column 1). -/
theorem year_heatmap_grid_structure_witness :
    hourToCol 5 = 5 ∧
    fillStep ["2024-07-01"] (List.replicate 1 (List.replicate 24 none))
        ⟨"2024-07-01T01:00", some 20, none, none, none⟩ =
      setCell (List.replicate 1 (List.replicate 24 none)) 0 (hourToCol 1) 20 :=
  ⟨(year_heatmap_grid_structure []).2.2.2.2.1 5 (by decide),
   (year_heatmap_grid_structure []).2.2.2.2.2 ["2024-07-01"]
     (List.replicate 1 (List.replicate 24 none))
     ⟨"2024-07-01T01:00", some 20, none, none, none⟩ 0 1 20
     (by decide) (by decide) rfl⟩

/-! Claim C4: canvas dimensions of the two render variants. -/

/-- The fixed Range Chart canvas constants (chart.js lines 4-5). -/
def WIDTH : Nat := 700

/-- The fixed Range Chart canvas height constant. -/
def HEIGHT : Nat := 420

/-- A margin record. -/
structure Margin where
  top : Nat
  right : Nat
  bottom : Nat
  left : Nat
deriving DecidableEq

/-- HEATMAP_MARGIN from chart.js. -/
def HEATMAP_MARGIN : Margin := ⟨44, 20, 32, 20⟩

/-- CELL_SIZE: the default heatmap cell size. -/
def CELL_SIZE : Nat := 8

/-- The svg width/height attributes emitted by buildWeatherChartSvg: the constants
WIDTH and HEIGHT, independent of the aggregated daily records. -/
def weatherChartDims (_daily : List DailyRecord) : Nat × Nat := (WIDTH, HEIGHT)

/-- The svg width/height attributes emitted by buildYearHeatmapSvg:
width = numCols * cellSize + left + right margins (numCols = 24),
height = numRows * cellSize + top + bottom margins (numRows = distinct dates). -/
def heatmapDims (samples : List HourlySample) (cellSize : Nat) : Nat × Nat :=
  ((24 : Nat) * cellSize + HEATMAP_MARGIN.left + HEATMAP_MARGIN.right,
   (heatmapDates samples).length * cellSize + HEATMAP_MARGIN.top + HEATMAP_MARGIN.bottom)

/-- C4 counterexample: the Range Chart canvas is the fixed constant 700 × 420 — two
inputs with different record counts produce identical canvas dimensions, refuting
the claim that both variants compute the canvas from record/row counts times
geometry rather than a fixed constant. -/
theorem range_chart_canvas_fixed_counterexample :
    weatherChartDims [⟨"2024-01-01", none, none, none, 0⟩] = (700, 420) ∧
    weatherChartDims [⟨"2024-01-01", none, none, none, 0⟩,
      ⟨"2024-01-02", none, none, none, 0⟩] = (700, 420) ∧
    weatherChartDims [] = weatherChartDims [⟨"2024-01-01", none, none, none, 0⟩] :=
  ⟨rfl, rfl, rfl⟩

/-- C4 (amended): the Year Heatmap canvas is a deterministic function of data size
and options — width 24·cellSize plus fixed margins, height rowCount·cellSize plus
fixed margins, strictly growing with the row count — while the Range Chart canvas is
the fixed constant 700 × 420 regardless of record count (only the per-date band
geometry inside the fixed canvas adapts). -/
theorem render_canvas_dimensions :
    (∀ (samples : List HourlySample) (cellSize : Nat),
      heatmapDims samples cellSize =
        (24 * cellSize + HEATMAP_MARGIN.left + HEATMAP_MARGIN.right,
         (heatmapDates samples).length * cellSize +
           HEATMAP_MARGIN.top + HEATMAP_MARGIN.bottom)) ∧
    HEATMAP_MARGIN = ⟨44, 20, 32, 20⟩ ∧
    (∀ (s1 s2 : List HourlySample) (c : Nat), 0 < c →
      (heatmapDates s1).length < (heatmapDates s2).length →
      (heatmapDims s1 c).2 < (heatmapDims s2 c).2) ∧
    (∀ daily : List DailyRecord, weatherChartDims daily = (WIDTH, HEIGHT) ∧
      WIDTH = 700 ∧ HEIGHT = 420) := by
  refine ⟨fun samples cellSize => rfl, rfl, fun s1 s2 c hc hlt => ?_,
    fun daily => ⟨rfl, rfl, rfl⟩⟩
  show (heatmapDates s1).length * c + HEATMAP_MARGIN.top + HEATMAP_MARGIN.bottom <
    (heatmapDates s2).length * c + HEATMAP_MARGIN.top + HEATMAP_MARGIN.bottom
  have hmul : (heatmapDates s1).length * c < (heatmapDates s2).length * c :=
    Nat.mul_lt_mul_of_lt_of_le hlt (Nat.le_refl c) hc
  omega

/-- C4 witness: the amended theorem applied at cell size 8 and series of 0 and 1
distinct dates. -/
theorem render_canvas_dimensions_witness :
    (heatmapDims [] 8).2 <
      (heatmapDims [⟨"2024-07-01T00:00", some 20, none, none, none⟩] 8).2 :=
  render_canvas_dimensions.2.2.1 [] [⟨"2024-07-01T00:00", some 20, none, none, none⟩] 8
    (by decide) (by decide)

/-- C10 witness: a full 100-entry memory tier with distinct keys. -/
def c10mem : MemCache := (List.range 100).map (fun i => ("k" ++ toString i ++ ":svg", [i]))

set_option maxRecDepth 4000 in
/-- C10 witness: the capacity theorem applied at a concrete full memory tier — a set
of the already-present key k5:svg evicts the unrelated oldest entry k0:svg. -/
theorem memory_tier_capacity_invariant_witness :
    memLookup (FileSystemCache.set ⟨c10mem, []⟩ "k5" "svg" [200] true).mem "k0:svg" = none :=
  memory_tier_capacity_invariant.2.2.2.2.2 c10mem [] "k5" "svg" [200] true "k0:svg" [0]
    c10mem.tail (by decide) (by decide) (by decide) (by decide) (by decide)

/-! Claim C3: generateCacheKey in cache.js, with the route call sites of index.js. -/

/-- `params[key]` for the JS parameter object, modelled as an insertion-ordered
key/value list whose values are already coerced to strings the way the template
literal does (null prints as "null", numbers and booleans as their string form,
`Number(lat).toFixed(4)` has been applied by the route before the call). -/
def lookupParam (params : List (String × String)) (k : String) : String :=
  ((params.find? (fun e => e.1 == k)).map Prod.snd).getD ""

/-- The string hashed by generateCacheKey:
`Object.keys(params).sort().map(key => key + ":" + params[key]).join("|")`. -/
def serializeParams (params : List (String × String)) : String :=
  String.intercalate "|"
    (((params.map Prod.fst).insertionSort (· ≤ ·)).map
      (fun k => k ++ ":" ++ lookupParam params k))

/-- generateCacheKey: a cryptographic hash (the external crypto library, a
parameter of the model) of the serialized parameters, rendered as hex by the
library. -/
def generateCacheKey (hash : String → String) (params : List (String × String)) : String :=
  hash (serializeParams params)

theorem lookupParam_cons_pos (x : String × String) (l : List (String × String)) (k : String)
    (hx : (x.1 == k) = true) : lookupParam (x :: l) k = x.2 := by
  unfold lookupParam
  rw [@List.find?_cons_of_pos _ (fun e => e.1 == k) x l hx]
  rfl

theorem lookupParam_cons_neg (x : String × String) (l : List (String × String)) (k : String)
    (hx : ¬ (x.1 == k) = true) : lookupParam (x :: l) k = lookupParam l k := by
  unfold lookupParam
  rw [@List.find?_cons_of_neg _ (fun e => e.1 == k) x l hx]

theorem lookupParam_perm (P1 P2 : List (String × String)) (h : P1.Perm P2) (k : String) :
    (P1.map Prod.fst).Nodup → lookupParam P1 k = lookupParam P2 k := by
  induction h with
  | nil => exact fun _ => rfl
  | cons x h ih =>
    intro hnd
    rw [List.map_cons, List.nodup_cons] at hnd
    by_cases hx : (x.1 == k) = true
    · rw [lookupParam_cons_pos x _ k hx, lookupParam_cons_pos x _ k hx]
    · rw [lookupParam_cons_neg x _ k hx, lookupParam_cons_neg x _ k hx]
      exact ih hnd.2
  | swap x y l =>
    intro hnd
    rw [List.map_cons, List.map_cons, List.nodup_cons] at hnd
    by_cases hy : (y.1 == k) = true
    · have hxk : ¬ (x.1 == k) = true := by
        intro hxx
        have h1 : y.1 = k := eq_of_beq hy
        have h2 : x.1 = k := eq_of_beq hxx
        have h3 : y.1 = x.1 := h1.trans h2.symm
        exact hnd.1 (h3 ▸ List.mem_cons_self x.1 (l.map Prod.fst))
      rw [lookupParam_cons_pos y _ k hy, lookupParam_cons_neg x _ k hxk,
        lookupParam_cons_pos y _ k hy]
    · by_cases hx : (x.1 == k) = true
      · rw [lookupParam_cons_neg y _ k hy, lookupParam_cons_pos x _ k hx,
          lookupParam_cons_pos x _ k hx]
      · rw [lookupParam_cons_neg y _ k hy, lookupParam_cons_neg x _ k hx,
          lookupParam_cons_neg x _ k hx, lookupParam_cons_neg y _ k hy]
  | trans h1 h2 ih1 ih2 =>
    intro hnd
    exact (ih1 hnd).trans (ih2 ((h1.map Prod.fst).nodup hnd))

/-- C3 (amended): equal normalized parameter mappings always yield equal cache keys —
two parameter objects with permuted keys and pointwise-equal values serialize and
hash identically, and in particular insertion order never affects the result (for
objects with distinct keys, as all route call sites build); the converse direction
of the claimed iff is false (see the collision counterexample). -/
theorem generateCacheKey_order_independent (hash : String → String)
    (P1 P2 : List (String × String)) :
    ((P1.map Prod.fst).Perm (P2.map Prod.fst) →
      (∀ k, lookupParam P1 k = lookupParam P2 k) →
      generateCacheKey hash P1 = generateCacheKey hash P2) ∧
    (P1.Perm P2 → (P1.map Prod.fst).Nodup →
      generateCacheKey hash P1 = generateCacheKey hash P2) := by
  have hmain : ∀ Q1 Q2 : List (String × String),
      (Q1.map Prod.fst).Perm (Q2.map Prod.fst) →
      (∀ k, lookupParam Q1 k = lookupParam Q2 k) →
      generateCacheKey hash Q1 = generateCacheKey hash Q2 := by
    intro Q1 Q2 hkeys hlook
    unfold generateCacheKey serializeParams
    have hsorted : (Q1.map Prod.fst).insertionSort (· ≤ ·) =
        (Q2.map Prod.fst).insertionSort (· ≤ ·) :=
      List.eq_of_perm_of_sorted
        (((List.perm_insertionSort _ _).trans hkeys).trans
          (List.perm_insertionSort _ _).symm)
        (List.sorted_insertionSort _ _) (List.sorted_insertionSort _ _)
    rw [hsorted]
    have hfun : (fun k => k ++ ":" ++ lookupParam Q1 k) =
        (fun k => k ++ ":" ++ lookupParam Q2 k) :=
      funext fun k => by rw [hlook k]
    rw [hfun]
  refine ⟨hmain P1 P2, fun hperm hnd => ?_⟩
  exact hmain P1 P2 (hperm.map Prod.fst) (fun k => lookupParam_perm P1 P2 hperm k hnd)

/-- The weather-image route parameter object of a crafted request whose city value
contains the separator characters. -/
def fpP1 : List (String × String) :=
  [("endpoint", "weather-image"), ("city", "A|end_date:B"), ("lat", "null"),
   ("lon", "null"), ("start_date", "2025-01-01"), ("end_date", "C"), ("format", "png")]

/-- A second, normalized-distinct parameter object of the same route. -/
def fpP2 : List (String × String) :=
  [("endpoint", "weather-image"), ("city", "A"), ("lat", "null"),
   ("lon", "null"), ("start_date", "2025-01-01"), ("end_date", "B|end_date:C"),
   ("format", "png")]

/-- C3 counterexample: two valid parameter mappings of the weather-image route with
the same keys but different city values (so distinct after normalization) whose
`name:value`-joined-by-"|" serializations coincide, hence whose cache keys coincide
for every hash function — the claimed iff fails in the only-if direction, before any
hash collision is even involved. -/
theorem generateCacheKey_collision_counterexample :
    lookupParam fpP1 "city" ≠ lookupParam fpP2 "city" ∧
    fpP1.map Prod.fst = fpP2.map Prod.fst ∧
    serializeParams fpP1 = serializeParams fpP2 ∧
    generateCacheKey (fun s => s) fpP1 = generateCacheKey (fun s => s) fpP2 := by
  refine ⟨by decide, by decide, by decide, ?_⟩
  unfold generateCacheKey
  exact congrArg (fun s => s) (by decide)

/-- C3 witness: the order-independence theorem applied at two concrete permuted
parameter objects. -/
theorem generateCacheKey_order_independent_witness :
    generateCacheKey (fun s => s) [("a", "1"), ("b", "2")] =
      generateCacheKey (fun s => s) [("b", "2"), ("a", "1")] :=
  (generateCacheKey_order_independent (fun s => s)
      [("a", "1"), ("b", "2")] [("b", "2"), ("a", "1")]).2 (by decide) (by decide)
